import Mathlib

/-!
Verification development for the tract-geometry and attribute synthesis code of
the DirectedStudy repository (Hartford/Stamford heat-vulnerability scripts).

Geometry is embedded over exact rationals.  A geometry value is a syntax tree
(`CG`) whose leaves are the shapes the scripts build (polygon rings, Voronoi
cells of a site list, circular buffers) and whose `interS` node models the
shapely `intersection` call; point membership `containsB` gives the region
semantics.  Point-in-polygon uses the standard even-odd ray-casting rule (the
same convention GEOS uses for simple polygons); membership of a circular
buffer is membership in the open disk, and a Voronoi cell is the set of points
strictly closer to its site than to every other site.  These conventions make
all region boundaries (shared edges, bisectors, circles) belong to no region,
so two regions of the model are disjoint exactly when the corresponding
shapely regions overlap in a set of zero area, which is how the spec phrases
non-overlap (`P.intersection(Q).area < epsilon`).

Geometric predicates that the scripts read off shapely/scipy results
(`is_valid`, `is_empty`, MultiPolygon-ness, largest part, `area`) are
abstracted into a record of functions (`GeoPred`), because they are computed
by the external library, not by repository code.  Theorems quantify over any
such record (constrained only where a claim needs it, e.g. that taking the
largest part of a multi-part geometry yields a subset); concrete runs use an
executable instance whose `area` is computed by exact Sutherland-Hodgman
clipping plus the shoelace formula.
-/

/-- A planar point with exact rational coordinates (longitude, latitude). -/
def Pt : Type := ℚ × ℚ

instance : DecidableEq Pt := by
  unfold Pt
  infer_instance

instance : Inhabited Pt := ⟨((0 : ℚ), (0 : ℚ))⟩

/-- Squared euclidean distance between two points. -/
def sqDist (p q : Pt) : ℚ :=
  (p.1 - q.1) * (p.1 - q.1) + (p.2 - q.2) * (p.2 - q.2)

/-- Does the horizontal ray from `p` toward positive x cross the edge `e`?
This is the PNPOLY crossing rule used by standard point-in-polygon tests:
the edge is crossed when its endpoints straddle the horizontal line through
`p` (half-open in y) and the crossing point lies strictly to the right. -/
def edgeCross (p : Pt) (e : Pt × Pt) : Bool :=
  let u := e.1
  let v := e.2
  (decide (p.2 < u.2) != decide (p.2 < v.2)) &&
    decide (p.1 < u.1 + (p.2 - u.2) * (v.1 - u.1) / (v.2 - u.2))

/-- Even-odd (ray casting) membership of `p` in the polygon with vertex ring
`vs`.  The ring is closed implicitly (`vs.rotate 1` pairs the last vertex
with the first); an explicitly repeated closing vertex only adds a degenerate
edge, which never crosses the ray. -/
def rayCast (vs : List Pt) (p : Pt) : Bool :=
  (vs.zip (vs.rotate 1)).foldl (fun acc e => if edgeCross p e then !acc else acc) false

/-- Geometry values: the shapes manipulated by the map scripts.
`poly vs` is a shapely `Polygon(vs)`; `voro sites i` is the Voronoi cell of
site `i` of `sites` (the polygon scipy returns for a bounded region, or the
mathematical cell region); `disk c r` is `Point(c).buffer(r)`;
`interS a b` is `a.intersection(b)`. -/
inductive CG : Type
  | poly (vs : List Pt)
  | voro (sites : List Pt) (i : ℕ)
  | disk (c : Pt) (r : ℚ)
  | interS (a b : CG)
deriving DecidableEq

/-- Is `p` strictly closer to site `i` than to every other site?  This is the
(interior of the) Voronoi cell of site `i`. -/
def strictClosest (sites : List Pt) (i : ℕ) (p : Pt) : Bool :=
  (List.range sites.length).all fun j =>
    j == i || decide (sqDist p (sites.getD i default) < sqDist p (sites.getD j default))

/-- Region membership for geometry values.  Polygon membership is even-odd
ray casting; buffer membership is the open disk; `interS` is conjunction
(shapely's `intersection` is set intersection). -/
def containsB : CG → Pt → Bool
  | CG.poly vs, p => rayCast vs p
  | CG.voro sites i, p => strictClosest sites i p
  | CG.disk c r, p => decide (sqDist p c < r * r)
  | CG.interS a b, p => containsB a p && containsB b p

instance : Inhabited CG := ⟨CG.poly []⟩

/-- Twice the signed area of a polygon ring (shoelace sum). -/
def shoelace2 : List Pt → ℚ
  | [] => 0
  | v :: vs =>
    let rec go (first prev : Pt) : List Pt → ℚ
      | [] => prev.1 * first.2 - first.1 * prev.2
      | w :: ws => (prev.1 * w.2 - w.1 * prev.2) + go first w ws
    go v v vs

/-- Absolute polygon area from the shoelace sum. -/
def ringArea (vs : List Pt) : ℚ := |shoelace2 vs| / 2

/-- Signed distance-like value of `p` against the directed line `a → b`
(positive on the left of the direction of travel for this sign convention). -/
def lineSide (a b p : Pt) : ℚ :=
  (b.1 - a.1) * (p.2 - a.2) - (b.2 - a.2) * (p.1 - a.1)

/-- One Sutherland-Hodgman step: clip the subject ring `subj` against the
half-plane on the left of the directed line `a → b`. -/
def clipEdge (subj : List Pt) (a b : Pt) : List Pt :=
  (subj.zip (subj.rotate 1)).foldl
    (fun acc e =>
      let pv := e.1
      let qv := e.2
      let dP := lineSide a b pv
      let dQ := lineSide a b qv
      let isect : Pt := (pv.1 + dP / (dP - dQ) * (qv.1 - pv.1),
                         pv.2 + dP / (dP - dQ) * (qv.2 - pv.2))
      if 0 ≤ dQ then
        (if 0 ≤ dP then acc ++ [qv] else acc ++ [isect, qv])
      else
        (if 0 ≤ dP then acc ++ [isect] else acc))
    []

/-- Sutherland-Hodgman clipping of the ring `subj` by the convex
counterclockwise ring `clip`. -/
def polyClip (subj clip : List Pt) : List Pt :=
  (clip.zip (clip.rotate 1)).foldl
    (fun acc e => if e.1 = e.2 then acc else clipEdge acc e.1 e.2) subj

/-- Exact area for the geometry values that arise in the concrete runs
modelled here: plain polygons by the shoelace formula, intersections of two
polygons by Sutherland-Hodgman clipping.  Buffers and Voronoi-cell leaves
never have their area inspected by the embedded control flow, so they are
given area 0 here; the executable predicate record below uses this function. -/
def areaB : CG → ℚ
  | CG.poly vs => ringArea vs
  | CG.interS (CG.poly pv) (CG.poly qv) => ringArea (polyClip pv qv)
  | _ => 0

/-- The geometric predicates the scripts read from shapely objects.  They are
produced by the external geometry library, so the embedding abstracts them as
an arbitrary record of functions; claims add exactly the assumptions they
need (e.g. `LargestSub`). -/
structure GeoPred : Type where
  isMulti : CG → Bool
  largest : CG → CG
  area : CG → ℚ
  isEmpty : CG → Bool
  isValid : CG → Bool
  isPolygon : CG → Bool

/-- The extractor `pred.largest` really extracts a part of a multi-part geometry: its
region is a subset of the region it is taken from.  This is the one fact
about `largest` the shapely `max(geoms, key=area)` idiom guarantees. -/
def LargestSub (pred : GeoPred) : Prop :=
  ∀ g p, containsB (pred.largest g) p = true → containsB g p = true

/-- Executable predicate record used to evaluate concrete runs: in every
concrete run modelled in this file the geometries these predicates are asked
about are single valid nonempty polygons (this is checked against the real
geometry of each run where the run is used), so the multi-part flag is
false, the emptiness flag is false, the validity flag is true, and the
largest-part extractor is the identity (shapely returns the polygon itself);
`area` is computed by exact clipping. -/
def defaultPred : GeoPred where
  isMulti := fun _ => false
  largest := id
  area := areaB
  isEmpty := fun _ => false
  isValid := fun _ => true
  isPolygon := fun _ => true

/-!
### Grid partition

`create_non_overlapping_tracts(hartford_data, city_boundary)` from
`create_correct_hartford_map.py`: build a `cols x rows` grid over the
boundary's bounding box, intersect each cell with the boundary, keep
intersections that are valid and larger than the `0.0001` square-degree
threshold (taking the largest part of a multi-part result), and stop once
`min(len(hartford_data), 50)` polygons have been collected.  Stopping early
is the same as taking the first `n` elements of the filtered cell list.
-/

/-- Ceiling square root `ceil(sqrt(q))` for a nonnegative rational, as used by
`int(np.ceil(np.sqrt(n_tracts * 1.2)))`: the least natural `c` with
`q ≤ c * c`. -/
def ceilSqrtQ (q : ℚ) : ℕ :=
  let m : ℕ := (Int.toNat ⌈q⌉)
  let s := Nat.sqrt m
  if q ≤ (s : ℚ) * (s : ℚ) then s else s + 1

/-- Bounding box `(west, south, east, north)` of a vertex list, modelling
shapely's `geometry.bounds`. -/
def boundsOf (vs : List Pt) : ℚ × ℚ × ℚ × ℚ :=
  match vs with
  | [] => (0, 0, 0, 0)
  | v :: rest =>
    (rest.foldl (fun a w => min a w.1) v.1,
     rest.foldl (fun a w => min a w.2) v.2,
     rest.foldl (fun a w => max a w.1) v.1,
     rest.foldl (fun a w => max a w.2) v.2)

/-- Row-major enumeration of the `(row, col)` grid indices, mirroring the
nested `for row in range(rows): for col in range(cols):` loops. -/
def gridPairs (rows cols : ℕ) : List (ℕ × ℕ) :=
  (List.range rows).flatMap fun r => (List.range cols).map fun c => (r, c)

/-- The cell polygon built for grid index `(row, col)`:
`Polygon([(left, bottom), (right, bottom), (right, top), (left, top),
(left, bottom)])` with `left = west + col * cell_width` etc. -/
def gridCell (west south cw ch : ℚ) (rc : ℕ × ℕ) : List Pt :=
  let l := west + (rc.2 : ℚ) * cw
  let r := west + ((rc.2 : ℚ) + 1) * cw
  let b := south + (rc.1 : ℚ) * ch
  let t := south + ((rc.1 : ℚ) + 1) * ch
  [(l, b), (r, b), (r, t), (l, t), (l, b)]

/-- Body of the grid loop for one cell: intersect with the boundary, keep it
when the area exceeds `0.0001` and the result is valid, taking the largest
part when the intersection is multi-part.  (The source guards with
`hasattr(tract, 'area')` and `hasattr(tract, 'is_valid')`, which hold for
every shapely geometry.) -/
def gridKeep (pred : GeoPred) (boundary : CG) (west south cw ch : ℚ)
    (rc : ℕ × ℕ) : Option CG :=
  let tract := CG.interS (CG.poly (gridCell west south cw ch rc)) boundary
  if pred.area tract > 1 / 10000 && pred.isValid tract then
    some (if pred.isMulti tract then pred.largest tract else tract)
  else
    none

/-- The full `create_non_overlapping_tracts` computation: `dataLen` is
`len(hartford_data)`; the function clips grid cells of the boundary's
bounding box and collects at most `min(dataLen, 50)` of them. -/
def gridTracts (pred : GeoPred) (bvs : List Pt) (dataLen : ℕ) : List CG :=
  let bb := boundsOf bvs
  let west := bb.1
  let south := bb.2.1
  let east := bb.2.2.1
  let north := bb.2.2.2
  let n := min dataLen 50
  let cols := ceilSqrtQ ((n : ℚ) * (6 / 5))
  let rows := (n + cols - 1) / cols
  let cw := (east - west) / (cols : ℚ)
  let ch := (north - south) / (rows : ℚ)
  ((gridPairs rows cols).filterMap (gridKeep pred (CG.poly bvs) west south cw ch)).take n

/-!
### Voronoi tessellation, scipy variant

`create_voronoi_tracts(tract_centers, city_boundary)` from
`create_hartford_geographic_map.py`: for each seed point, take its scipy
Voronoi cell; when the cell is unbounded/degenerate (`-1 in region`, or
`Polygon(vertices)` fails) substitute a `0.003`-radius buffer around the
seed; clip to the boundary; when the clipped result is empty or invalid
substitute a smaller `0.002`-radius buffer clipped to the boundary; when it
is multi-part keep the largest part.  Whether cell `i` is unbounded is a
fact about the scipy Voronoi diagram, so the embedding receives it as a
boolean per seed (`ub`).
-/

/-- Loop body of the scipy-Voronoi tract construction for seed `i`. -/
def geoVoroTract (pred : GeoPred) (sites : List Pt) (boundary : CG)
    (ub : Bool) (i : ℕ) : CG :=
  let base := if ub then CG.disk (sites.getD i default) (3 / 1000) else CG.voro sites i
  let clipped := CG.interS base boundary
  let clipped2 :=
    if pred.isEmpty clipped || !pred.isValid clipped then
      CG.interS (CG.disk (sites.getD i default) (1 / 500)) boundary
    else clipped
  if pred.isMulti clipped2 then pred.largest clipped2 else clipped2

/-- The full scipy-Voronoi tract list: one polygon per seed point, in seed
order; `ubFlags` records which cells scipy reports as unbounded. -/
def geoVoroTracts (pred : GeoPred) (sites : List Pt) (ubFlags : List Bool)
    (boundary : CG) : List CG :=
  (List.range sites.length).map fun i =>
    geoVoroTract pred sites boundary (ubFlags.getD i false) i

/-!
### Voronoi tessellation with hexagon padding

`create_voronoi_tracts(hartford_data)` from
`create_non_overlapping_hartford_map.py`: seed points are proposals (cluster
center plus random offset) clamped into the rectangle
`[west + 0.01, east - 0.01] x [south + 0.01, north - 0.01]`; the polygons of
the `voronoi_diagram` GeometryCollection are clipped to the rectangular
boundary and kept when larger than `0.0001` (largest part of a multi-part
clip); then hexagons of circumradius `0.008` around the seed points pad the
list up to `len(hartford_data)` and the list is truncated to that length.
The hexagon (`size * cos/sin` of the six sixth-roots of unity around the
seed) is inscribed in the disk of radius `0.008` around the seed, and the
model uses that disk; every statement proved about the padded list only
needs an upper bound on the hexagon's extent, so the disk is a sound
over-approximation.  The source's `while` loop appends one hexagon per
iteration (a regular hexagon of positive size is always valid, so the
`if poly.is_valid` guard always passes) and stops when the list reaches
`len(hartford_data) = len(points)` elements.
-/

/-- Clamping `max(lo, min(hi, x))`, the idiom of the seed-placement code. -/
def clampQ (lo hi x : ℚ) : ℚ := max lo (min hi x)

/-- Clamp a proposed seed point into the seed rectangle, modelling
`lat = max(south + 0.01, min(north - 0.01, lat))` and the analogous
longitude line. -/
def clampPt (west south east north : ℚ) (raw : Pt) : Pt :=
  (clampQ (west + 1 / 100) (east - 1 / 100) raw.1,
   clampQ (south + 1 / 100) (north - 1 / 100) raw.2)

/-- One step of the extraction loop over the polygons of the
`voronoi_diagram` result: a valid polygon is clipped to the boundary and
kept when the clipped area exceeds `0.0001` (largest part of a multi-part
clip). -/
def clipKeep (pred : GeoPred) (boundary : CG) (g : CG) : Option CG :=
  if pred.isPolygon g && pred.isValid g then
    let clipped := CG.interS g boundary
    if pred.isPolygon clipped && decide (pred.area clipped > 1 / 10000) then
      some clipped
    else if pred.isMulti clipped then
      let lg := pred.largest clipped
      if decide (pred.area lg > 1 / 10000) then some lg else none
    else none
  else none

/-- The full extraction loop of `create_voronoi_tracts` over the
GeometryCollection polygons. -/
def extractClips (pred : GeoPred) (vorPolys : List CG) (boundary : CG) : List CG :=
  vorPolys.filterMap (clipKeep pred boundary)

/-- The hexagon-padding `while` loop: append a hexagon (modelled by its
circumscribed disk) around seed number `geoms.length` until the list has
`n` elements.  The source recurses only while `point_idx < len(points)`;
with fewer seed points than `n` the source loop would never terminate, so
the guard is part of the recursion condition here. -/
def padHex (points : List Pt) (n : ℕ) (geoms : List CG) : List CG :=
  if h : geoms.length < n ∧ geoms.length < points.length then
    padHex points n (geoms ++ [CG.disk (points.get ⟨geoms.length, h.2⟩) (8 / 1000)])
  else geoms
termination_by n - geoms.length
decreasing_by
  simp only [List.length_append, List.length_cons, List.length_nil]
  omega

/-- The full padded-Voronoi tract construction: rectangular boundary from
the computed bounds, clamped seed points from the raw proposals, Voronoi
clips, hexagon padding, truncation to `len(hartford_data) = len(points)`. -/
def voroTractsPadded (pred : GeoPred) (west south east north : ℚ)
    (raws : List Pt) (vorPolys : List CG) : List CG :=
  let boundary := CG.poly [(west, south), (east, south), (east, north),
                           (west, north), (west, south)]
  let points := raws.map (clampPt west south east north)
  let geoms := extractClips pred vorPolys boundary
  (padHex points points.length geoms).take points.length

/-!
### Pairwise overlap repair

`process_original_geometries_no_overlap(census_tracts)` from
`create_hartford_no_overlap_original_shapes.py`: geometries loaded from an
external file are first repaired with a zero-width buffer when invalid;
then, in input order, each tract's geometry is intersected with every
previously accepted (already repaired) geometry, and any intersection of
area above `0.000001` is subtracted.  If a subtraction empties the geometry,
a `0.001`-radius buffer around the original geometry's centroid is
substituted; if the subtraction raises, an axis-aligned rectangle built from
the current geometry's bounding box shifted by `0.0001 * i` is substituted;
a multi-part difference keeps its largest part.  Finally every geometry is
validity-fixed again.

The shapely operations are abstracted into `RepairOps`: the repository code
is exactly the control flow below, and a raised exception in
`current_geom.difference(intersection)` is modelled by `difference`
returning `none`.
-/

/-- The shapely operations used by the overlap-repair pass, over an
abstract geometry type `G`. -/
structure RepairOps (G : Type) : Type where
  isValid : G → Bool
  buffer0 : G → G
  intersects : G → G → Bool
  intersection : G → G → G
  area : G → ℚ
  difference : G → G → Option G
  isEmpty : G → Bool
  centroidBuffer : G → G
  isMulti : G → Bool
  largest : G → G
  bounds : G → ℚ × ℚ × ℚ × ℚ
  mkRect : ℚ → ℚ → ℚ → ℚ → G

/-- The validity fix `geom if geom.is_valid else geom.buffer(0)`, applied to
every geometry before and after the repair loop. -/
def fixValid {G : Type} (ops : RepairOps G) (g : G) : G :=
  if ops.isValid g then g else ops.buffer0 g

/-- One iteration of the inner repair loop: fold the current geometry `cur`
of tract number `i` (with original geometry `orig`) against one previously
accepted geometry `prev`. -/
def repairStep {G : Type} (ops : RepairOps G) (orig : G) (i : ℕ)
    (cur prev : G) : G :=
  if ops.intersects cur prev then
    let icp := ops.intersection cur prev
    if ops.area icp > 1 / 1000000 then
      match ops.difference cur icp with
      | some d =>
        if ops.isEmpty d then ops.centroidBuffer orig
        else if ops.isMulti d then ops.largest d
        else d
      | none =>
        let bb := ops.bounds cur
        let off := (1 / 10000 : ℚ) * (i : ℚ)
        ops.mkRect (bb.1 + off) (bb.2.1 + off) (bb.2.2.1 + off) (bb.2.2.2 + off)
    else cur
  else cur

/-- Repair of one tract: fold its geometry through all previously accepted
geometries, in order. -/
def repairTract {G : Type} (ops : RepairOps G) (i : ℕ) (prevs : List G)
    (g : G) : G :=
  prevs.foldl (repairStep ops g i) g

/-- The outer repair loop: accumulate accepted geometries left to right,
repairing tract `i` against all earlier results. -/
def repairGo {G : Type} (ops : RepairOps G) : List G → ℕ → List G → List G
  | acc, _, [] => acc
  | acc, i, g :: rest => repairGo ops (acc ++ [repairTract ops i acc g]) (i + 1) rest

/-- The full `process_original_geometries_no_overlap` pass: validity-fix all
inputs, run the pairwise repair, validity-fix all outputs. -/
def processNoOverlap {G : Type} (ops : RepairOps G) (gs : List G) : List G :=
  (repairGo ops [] 0 (gs.map (fixValid ops))).map (fixValid ops)

/-!
### Attribute synthesis (`hartford_hvi_implementation.py`,
`stamford_hvi_implementation.py`)

Column values are modelled by `FVal`: a finite rational, one of the two
infinities, or NaN.  `pd.isna` is true exactly on NaN; `replace([inf, -inf],
nan)` maps both infinities to NaN; `fillna(v.median())` fills NaN with the
median of the finite entries (pandas skips NaN when computing the median,
and filling with a NaN median leaves NaN in place).  After the fill the
series is either all-finite or all-NaN, and on an all-finite series the
source's zero-variance test `v.std() == 0 or (v.max() - v.min()) == 0` is
equivalent in exact arithmetic to `max = min` (for a single element the
sample standard deviation is NaN and `NaN == 0` is false, but `max - min`
is 0).  On an all-NaN series both `std` and `max - min` are NaN, `NaN == 0`
is false, and the rescaling arithmetic propagates NaN through subtraction,
division and `clip` - which is what the `allNanTail` arm models.
-/

/-- A pandas float cell: finite value, infinity, or NaN. -/
inductive FVal : Type
  | fin (q : ℚ)
  | pinf
  | ninf
  | nan
deriving DecidableEq

/-- The test `pd.isna` on a float cell. -/
def isNanB : FVal → Bool
  | FVal.nan => true
  | _ => false

/-- The substitution `replace([np.inf, -np.inf], np.nan)` on one cell. -/
def infToNan : FVal → FVal
  | FVal.pinf => FVal.nan
  | FVal.ninf => FVal.nan
  | v => v

/-- The finite entries of a column, in order. -/
def finiteVals (l : List FVal) : List ℚ :=
  l.filterMap fun v => match v with | FVal.fin q => some q | _ => none

/-- The pandas median of a column: sort the finite entries, take the middle
one (odd length) or the mean of the two middle ones (even length); the
median of a column with no finite entries is NaN. -/
def medianF (l : List FVal) : FVal :=
  let s := (finiteVals l).insertionSort (· ≤ ·)
  let n := s.length
  if n = 0 then FVal.nan
  else if n % 2 = 1 then FVal.fin (s.getD (n / 2) 0)
  else FVal.fin ((s.getD (n / 2 - 1) 0 + s.getD (n / 2) 0) / 2)

/-- Minimum and maximum of the finite entries of a column (pandas `min` and
`max` skip NaN); `none` when there is no finite entry. -/
def minMaxFin (l : List FVal) : Option (ℚ × ℚ) :=
  match finiteVals l with
  | [] => none
  | q :: qs => some (qs.foldl min q, qs.foldl max q)

/-- The fill `fillna(median)` on one cell. -/
def fillNa (med : FVal) (v : FVal) : FVal := if isNanB v then med else v

/-- The rescaling step `((v - min) / (max - min)).clip(0, 1)` of
`normalize_score` on one cell; NaN propagates through the arithmetic and
through `clip`. -/
def rescaleCell (mn mx : ℚ) : FVal → FVal
  | FVal.fin q => FVal.fin (max 0 (min ((q - mn) / (mx - mn)) 1))
  | _ => FVal.nan

/-- The part of `normalize_score` after the fill: the zero-variance test
`v.std() == 0 or (v.max() - v.min()) == 0` (equivalent in exact arithmetic
to `max = min` over the finite entries) short-circuits to 0.5, otherwise
each cell is rescaled and clipped.  On a series with no finite entry both
`std` and `max - min` are NaN, `NaN == 0` is false, and the rescaling
arithmetic turns every cell into NaN (the `none` arm). -/
def normTail (v2 : List FVal) : List FVal :=
  match minMaxFin v2 with
  | some (mn, mx) =>
    if mx - mn = 0 then v2.map fun _ => FVal.fin (1 / 2)
    else v2.map (rescaleCell mn mx)
  | none => v2.map fun _ => FVal.nan

/-- The helper `normalize_score(values)` from `phase2_step6_vulnerability_index`:
all-null columns short-circuit to 0.5; infinities become NaN and NaN is
filled with the column median; zero-variance columns short-circuit to 0.5;
otherwise rescale by `(v - min) / (max - min)` and clip to `[0, 1]`. -/
def normalizeScore (vals : List FVal) : List FVal :=
  if vals.all isNanB then vals.map fun _ => FVal.fin (1 / 2)
  else
    let v1 := vals.map infToNan
    normTail (v1.map (fillNa (medianF v1)))

/-- One `pd.cut` label for bin edges `np.linspace(mn, mx, 6)` with
`labels=[1..5]` and `include_lowest=True`: the first right-closed interval
that contains the value.  (With `mx - mn >= 1e-10` the six edges are
strictly increasing in exact arithmetic, so `duplicates='drop'` never
fires.) -/
def binLabel (mn mx v : ℚ) : ℕ :=
  if v ≤ mn + (mx - mn) / 5 then 1
  else if v ≤ mn + 2 * ((mx - mn) / 5) then 2
  else if v ≤ mn + 3 * ((mx - mn) / 5) then 3
  else if v ≤ mn + 4 * ((mx - mn) / 5) then 4
  else 5

/-- Minimum of a rational column (0 for an empty column). -/
def listMin : List ℚ → ℚ
  | [] => 0
  | x :: xs => xs.foldl min x

/-- Maximum of a rational column (0 for an empty column). -/
def listMax : List ℚ → ℚ
  | [] => 0
  | x :: xs => xs.foldl max x

/-- The vulnerability-index assignment of `phase2_step6_vulnerability_index`
(identical in the Hartford and Stamford scripts): when the observed score
range is below `1e-10` every tract gets index 3, otherwise scores are cut
into 5 equal-width bins between the observed min and max. -/
def vulnIndex (scores : List ℚ) : List ℕ :=
  let mn := listMin scores
  let mx := listMax scores
  if mx - mn < 1 / 10000000000 then scores.map fun _ => 3
  else scores.map (binLabel mn mx)

/-- The classifier `classify_housing_type(b25024_value)`: single-family exactly when the
units-in-structure code is missing, 1 or 2.  `true` means single-family. -/
def classifyHousing (b25024 : Option ℚ) : Bool :=
  match b25024 with
  | none => true
  | some v => decide (v = 1) || decide (v = 2)

/-- The model `predict_ac_access(row)` from the Hartford script: median-income
fallback 45000 when income is missing or non-positive, base probability
0.65, income factor `max(0.3, min(income / 50000, 2.0))`, housing factor
1.2 (single-family) or 0.8, final clip `max(0.1, min(p, 0.99))`. -/
def hartfordAcAccess (income : Option ℚ) (b25024 : Option ℚ) : ℚ :=
  let singleFam := classifyHousing b25024
  let inc : ℚ := match income with
    | none => 45000
    | some q => if q ≤ 0 then 45000 else q
  let base : ℚ := 65 / 100
  let incomeFactor : ℚ := max (3 / 10) (min (inc / 50000) 2)
  let housingFactor : ℚ := if singleFam then 12 / 10 else 8 / 10
  let probability := base * incomeFactor * housingFactor
  max (1 / 10) (min probability (99 / 100))

/-- The model `predict_ac_access(row)` from the Stamford script: fallback income
75000, base probability 0.75, income factor
`max(0.4, min(income / 75000, 1.8))`, housing factors 1.15/0.85, final clip
`max(0.15, min(p, 0.99))`. -/
def stamfordAcAccess (income : Option ℚ) (b25024 : Option ℚ) : ℚ :=
  let singleFam := classifyHousing b25024
  let inc : ℚ := match income with
    | none => 75000
    | some q => if q ≤ 0 then 75000 else q
  let base : ℚ := 75 / 100
  let incomeFactor : ℚ := max (4 / 10) (min (inc / 75000) (18 / 10))
  let housingFactor : ℚ := if singleFam then 115 / 100 else 85 / 100
  let probability := base * incomeFactor * housingFactor
  max (15 / 100) (min probability (99 / 100))

/-- Population densities `B01003_001E / B25001_001E`, one per row. -/
def popDensities (pops housing : List ℚ) : List ℚ :=
  List.zipWith (fun p h => p / h) pops housing

/-- The urban-heat-island addend of `phase2_step2_temperature_data`:
normalized population density (min-max over the whole row set) times the
3 degree maximum. -/
def heatIslandAddend (pops housing : List ℚ) (i : ℕ) : ℚ :=
  let dens := popDensities pops housing
  ((dens.getD i 0 - listMin dens) / (listMax dens - listMin dens)) * 3

/-- The value `mean_temp` for row `i`: the Normal(28, 2) base draw (randomness enters
the embedding as the list of drawn base temperatures) plus the heat-island
addend. -/
def meanTemp (baseTemps pops housing : List ℚ) (i : ℕ) : ℚ :=
  baseTemps.getD i 0 + heatIslandAddend pops housing i

/-!
### Auxiliary notions used by the claim statements
-/

/-- The clip combinator of the spec: `clip(x, lo, hi) = max(lo, min(x, hi))`. -/
def clipSpec (lo hi x : ℚ) : ℚ := max lo (min x hi)

/-- Is a float cell a finite value inside `[0, 1]`? -/
def inUnitFin (v : FVal) : Bool :=
  match v with
  | FVal.fin q => decide (0 ≤ q ∧ q ≤ 1)
  | _ => false

/-- Two geometry regions overlap in a set with empty interior: no point of
the (half-open / strict) model region of one is a point of the other.  This
is the model rendering of `P.intersection(Q).area < epsilon`. -/
def DisjB (a b : CG) : Prop :=
  ∀ p : Pt, ¬(containsB a p = true ∧ containsB b p = true)

/-- The region of `a` is included in the region of `b` (the model rendering
of `a.difference(b).area < epsilon`). -/
def SubB (a b : CG) : Prop :=
  ∀ p : Pt, containsB a p = true → containsB b p = true

/-- A trivial concrete instance of the overlap-repair operations over `ℕ`,
used to witness the control-flow theorems: every geometry intersects every
other with area 1, subtraction always raises, bounds are `(1, 2, 3, 4)` and
the fallback rectangle is encoded as `1000`. -/
def opsW : RepairOps ℕ where
  isValid := fun _ => true
  buffer0 := fun g => g + 100
  intersects := fun _ _ => true
  intersection := fun _ _ => 0
  area := fun _ => 1
  difference := fun _ _ => none
  isEmpty := fun _ => false
  centroidBuffer := fun g => g + 500
  isMulti := fun _ => false
  largest := fun g => g
  bounds := fun _ => (1, 2, 3, 4)
  mkRect := fun _ _ _ _ => 1000

/-- A second concrete instance of the overlap-repair operations whose
subtraction succeeds and empties the geometry, for the witness of the
centroid-buffer case. -/
def opsW2 : RepairOps ℕ where
  isValid := fun _ => true
  buffer0 := fun g => g + 100
  intersects := fun _ _ => true
  intersection := fun _ _ => 0
  area := fun _ => 1
  difference := fun _ _ => some 77
  isEmpty := fun _ => true
  centroidBuffer := fun g => g + 500
  isMulti := fun _ => false
  largest := fun g => g
  bounds := fun _ => (1, 2, 3, 4)
  mkRect := fun _ _ _ _ => 1000

/-!
## Theorems

General list helpers first, then one theorem per claim (with witnesses and
counterexamples where required).
-/

theorem defaultPred_largestSub : LargestSub defaultPred := fun _ _ h => h

theorem foldl_min_le_init (l : List ℚ) (a : ℚ) : l.foldl min a ≤ a := by
  induction l generalizing a with
  | nil => exact le_refl a
  | cons x xs ih => exact le_trans (ih (min a x)) (min_le_left a x)

theorem foldl_min_le_mem {x : ℚ} (l : List ℚ) (a : ℚ) (hx : x ∈ l) :
    l.foldl min a ≤ x := by
  induction l generalizing a with
  | nil => cases hx
  | cons y ys ih =>
    rcases List.mem_cons.1 hx with h | h
    · subst h
      exact le_trans (foldl_min_le_init ys (min a x)) (min_le_right a x)
    · exact ih (min a y) h

theorem init_le_foldl_max (l : List ℚ) (a : ℚ) : a ≤ l.foldl max a := by
  induction l generalizing a with
  | nil => exact le_refl a
  | cons x xs ih => exact le_trans (le_max_left a x) (ih (max a x))

theorem mem_le_foldl_max {x : ℚ} (l : List ℚ) (a : ℚ) (hx : x ∈ l) :
    x ≤ l.foldl max a := by
  induction l generalizing a with
  | nil => cases hx
  | cons y ys ih =>
    rcases List.mem_cons.1 hx with h | h
    · subst h
      exact le_trans (le_max_right a x) (init_le_foldl_max ys (max a x))
    · exact ih (max a y) h

theorem listMin_le_mem {x : ℚ} {l : List ℚ} (hx : x ∈ l) : listMin l ≤ x := by
  cases l with
  | nil => cases hx
  | cons y ys =>
    rcases List.mem_cons.1 hx with h | h
    · subst h
      exact foldl_min_le_init ys x
    · exact foldl_min_le_mem ys y h

theorem mem_le_listMax {x : ℚ} {l : List ℚ} (hx : x ∈ l) : x ≤ listMax l := by
  cases l with
  | nil => cases hx
  | cons y ys =>
    rcases List.mem_cons.1 hx with h | h
    · subst h
      exact init_le_foldl_max ys x
    · exact mem_le_foldl_max ys y h

theorem getD_mem_of_lt {α : Type} [Inhabited α] {l : List α} {i : ℕ}
    (hi : i < l.length) (d : α) : l.getD i d ∈ l := by
  rw [List.getD_eq_getElem l d hi]
  exact List.getElem_mem hi

theorem getD_map_of_lt {α β : Type} (f : α → β) (l : List α) {i : ℕ}
    (hi : i < l.length) (d : β) (d' : α) :
    (l.map f).getD i d = f (l.getD i d') := by
  rw [List.getD_eq_getElem (l.map f) d (by simpa using hi),
      List.getD_eq_getElem l d' hi, List.getElem_map]

/-- Claim C9: `synthesize_temperature` sets `mean_temperature` to the
Normal base draw plus a heat-island term equal to the min-max-normalized
population density times the 3 degree city maximum; whenever the densities
are not all equal (so the normalization is well defined) the addend lies in
`[0, 3]` and is monotonically non-decreasing in the row's density. -/
theorem claim_C9_heat_island :
    ∀ (baseTemps pops housing : List ℚ) (i j : ℕ),
      i < (popDensities pops housing).length →
      j < (popDensities pops housing).length →
      listMin (popDensities pops housing) < listMax (popDensities pops housing) →
      meanTemp baseTemps pops housing i =
          baseTemps.getD i 0 + heatIslandAddend pops housing i ∧
        0 ≤ heatIslandAddend pops housing i ∧
        heatIslandAddend pops housing i ≤ 3 ∧
        ((popDensities pops housing).getD i 0 ≤ (popDensities pops housing).getD j 0 →
          heatIslandAddend pops housing i ≤ heatIslandAddend pops housing j) := by
  intro baseTemps pops housing i j hi hj hvar
  have hdi : listMin (popDensities pops housing) ≤ (popDensities pops housing).getD i 0 :=
    listMin_le_mem (getD_mem_of_lt hi 0)
  have hdi2 : (popDensities pops housing).getD i 0 ≤ listMax (popDensities pops housing) :=
    mem_le_listMax (getD_mem_of_lt hi 0)
  have hpos : 0 < listMax (popDensities pops housing) - listMin (popDensities pops housing) :=
    sub_pos.2 hvar
  refine ⟨rfl, ?_, ?_, ?_⟩
  · exact mul_nonneg (div_nonneg (sub_nonneg.2 hdi) (le_of_lt hpos)) (by norm_num)
  · have h1 : ((popDensities pops housing).getD i 0 - listMin (popDensities pops housing)) /
        (listMax (popDensities pops housing) - listMin (popDensities pops housing)) ≤ 1 :=
      (div_le_one hpos).2 (by linarith)
    show ((popDensities pops housing).getD i 0 - listMin (popDensities pops housing)) /
        (listMax (popDensities pops housing) - listMin (popDensities pops housing)) * 3 ≤ 3
    linarith [h1]
  · intro hij
    exact mul_le_mul_of_nonneg_right
      ((div_le_div_iff_of_pos_right hpos).2 (by linarith)) (by norm_num)

/-- Witness for C9 at a concrete row set: densities `[1, 2]`, base
temperatures `[28, 28]`. -/
theorem claim_C9_heat_island_witness :
    0 < (popDensities [1, 2] [1, 1]).length ∧
      1 < (popDensities [1, 2] [1, 1]).length ∧
      listMin (popDensities [1, 2] [1, 1]) < listMax (popDensities [1, 2] [1, 1]) ∧
      (meanTemp [28, 28] [1, 2] [1, 1] 0 =
          ([28, 28] : List ℚ).getD 0 0 + heatIslandAddend [1, 2] [1, 1] 0 ∧
        0 ≤ heatIslandAddend [1, 2] [1, 1] 0 ∧
        heatIslandAddend [1, 2] [1, 1] 0 ≤ 3 ∧
        ((popDensities [1, 2] [1, 1]).getD 0 0 ≤ (popDensities [1, 2] [1, 1]).getD 1 0 →
          heatIslandAddend [1, 2] [1, 1] 0 ≤ heatIslandAddend [1, 2] [1, 1] 1)) := by
  have hlen : (popDensities [1, 2] [1, 1]).length = 2 := rfl
  have hvar : listMin (popDensities [1, 2] [1, 1]) < listMax (popDensities [1, 2] [1, 1]) := by
    norm_num [popDensities, listMin, listMax]
  exact ⟨by omega, by omega, hvar,
    claim_C9_heat_island [28, 28] [1, 2] [1, 1] 0 1 (by omega) (by omega) hvar⟩

/-- Claim C8: for every row, `ac_probability` equals
`clip(base_probability * income_factor * housing_factor, low, high)` with
`income_factor = clip(income / reference_income, min, max)`, the housing
factor one of two constants chosen by the single/multi-family
classification, the city median substituted for missing or non-positive
income, and the city-specific clip bounds (Hartford `[0.10, 0.99]`,
Stamford `[0.15, 0.99]`); consequently `0 < ac_probability ≤ 1`. -/
theorem claim_C8_ac_probability :
    ∀ (income b25024 : Option ℚ),
      (hartfordAcAccess income b25024 =
          clipSpec (1 / 10) (99 / 100)
            ((65 / 100) *
              clipSpec (3 / 10) 2
                ((match income with
                  | none => (45000 : ℚ)
                  | some q => if q ≤ 0 then 45000 else q) / 50000) *
              (if classifyHousing b25024 then 12 / 10 else 8 / 10)) ∧
        0 < hartfordAcAccess income b25024 ∧ hartfordAcAccess income b25024 ≤ 1) ∧
      (stamfordAcAccess income b25024 =
          clipSpec (15 / 100) (99 / 100)
            ((75 / 100) *
              clipSpec (4 / 10) (18 / 10)
                ((match income with
                  | none => (75000 : ℚ)
                  | some q => if q ≤ 0 then 75000 else q) / 75000) *
              (if classifyHousing b25024 then 115 / 100 else 85 / 100)) ∧
        0 < stamfordAcAccess income b25024 ∧ stamfordAcAccess income b25024 ≤ 1) := by
  intro income b25024
  refine ⟨⟨?_, ?_⟩, ?_, ?_⟩
  · unfold hartfordAcAccess clipSpec
    rfl
  · unfold hartfordAcAccess
    constructor
    · exact lt_of_lt_of_le (by norm_num) (le_max_left _ _)
    · exact max_le (by norm_num) ((min_le_right _ _).trans (by norm_num))
  · unfold stamfordAcAccess clipSpec
    rfl
  · unfold stamfordAcAccess
    constructor
    · exact lt_of_lt_of_le (by norm_num) (le_max_left _ _)
    · exact max_le (by norm_num) ((min_le_right _ _).trans (by norm_num))

/-- Claim C5: when the observed score range is below the `1e-10` tolerance,
`compute_vulnerability` assigns index 3 to every row; otherwise every row's
index is an integer in `{1, ..., 5}` given by the 5 equal-width bins
between the observed min and max (the row's score lies in the right-closed
bin whose number is the assigned index). -/
theorem claim_C5_vulnerability_binning :
    ∀ (scores : List ℚ),
      (listMax scores - listMin scores < 1 / 10000000000 →
        vulnIndex scores = scores.map fun _ => 3) ∧
      (1 / 10000000000 ≤ listMax scores - listMin scores →
        ∀ i : ℕ, i < scores.length →
          (1 ≤ (vulnIndex scores).getD i 0 ∧ (vulnIndex scores).getD i 0 ≤ 5) ∧
          scores.getD i 0 ≤ listMin scores +
            (((vulnIndex scores).getD i 0 : ℚ)) * ((listMax scores - listMin scores) / 5) ∧
          ((vulnIndex scores).getD i 0 = 1 ∨
            listMin scores + (((vulnIndex scores).getD i 0 : ℚ) - 1) *
              ((listMax scores - listMin scores) / 5) < scores.getD i 0)) := by
  intro scores
  constructor
  · intro h
    unfold vulnIndex
    rw [if_pos h]
  · intro h i hi
    have hmem : scores.getD i 0 ∈ scores := getD_mem_of_lt hi 0
    have hvmax : scores.getD i 0 ≤ listMax scores := mem_le_listMax hmem
    have hvmin : listMin scores ≤ scores.getD i 0 := listMin_le_mem hmem
    have hne : ¬(listMax scores - listMin scores < 1 / 10000000000) := not_lt.2 h
    have hgd : (vulnIndex scores).getD i 0 =
        binLabel (listMin scores) (listMax scores) (scores.getD i 0) := by
      unfold vulnIndex
      rw [if_neg hne]
      exact getD_map_of_lt _ scores hi 0 0
    rw [hgd]
    have h5 : 5 * ((listMax scores - listMin scores) / 5) =
        listMax scores - listMin scores := by ring
    unfold binLabel
    split_ifs with h1 h2 h3 h4
    · exact ⟨⟨le_refl 1, by norm_num⟩, by push_cast; linarith, Or.inl rfl⟩
    · refine ⟨⟨by norm_num, by norm_num⟩, by push_cast; linarith,
        Or.inr (by push_cast; linarith)⟩
    · refine ⟨⟨by norm_num, by norm_num⟩, by push_cast; linarith,
        Or.inr (by push_cast; linarith)⟩
    · refine ⟨⟨by norm_num, by norm_num⟩, by push_cast; linarith,
        Or.inr (by push_cast; linarith)⟩
    · refine ⟨⟨by norm_num, by norm_num⟩, by push_cast; linarith,
        Or.inr (by push_cast; linarith)⟩

/-- Witness for C5: the degenerate run `[1/2, 1/2]` gets index 3
everywhere, and the run `[0, 1]` gets in-range bin labels. -/
theorem claim_C5_vulnerability_binning_witness :
    (listMax [(1 : ℚ) / 2, 1 / 2] - listMin [(1 : ℚ) / 2, 1 / 2] < 1 / 10000000000 ∧
      vulnIndex [(1 : ℚ) / 2, 1 / 2] = ([(1 : ℚ) / 2, 1 / 2]).map fun _ => 3) ∧
    (1 / 10000000000 ≤ listMax [(0 : ℚ), 1] - listMin [(0 : ℚ), 1] ∧
      0 < ([(0 : ℚ), 1] : List ℚ).length ∧
      ((1 ≤ (vulnIndex [(0 : ℚ), 1]).getD 0 0 ∧ (vulnIndex [(0 : ℚ), 1]).getD 0 0 ≤ 5) ∧
        ([(0 : ℚ), 1] : List ℚ).getD 0 0 ≤ listMin [(0 : ℚ), 1] +
          (((vulnIndex [(0 : ℚ), 1]).getD 0 0 : ℚ)) *
            ((listMax [(0 : ℚ), 1] - listMin [(0 : ℚ), 1]) / 5) ∧
        ((vulnIndex [(0 : ℚ), 1]).getD 0 0 = 1 ∨
          listMin [(0 : ℚ), 1] + (((vulnIndex [(0 : ℚ), 1]).getD 0 0 : ℚ) - 1) *
            ((listMax [(0 : ℚ), 1] - listMin [(0 : ℚ), 1]) / 5) <
              ([(0 : ℚ), 1] : List ℚ).getD 0 0))) := by
  have hdeg : listMax [(1 : ℚ) / 2, 1 / 2] - listMin [(1 : ℚ) / 2, 1 / 2] <
      1 / 10000000000 := by
    norm_num [listMax, listMin]
  have hnon : (1 : ℚ) / 10000000000 ≤ listMax [(0 : ℚ), 1] - listMin [(0 : ℚ), 1] := by
    norm_num [listMax, listMin]
  exact ⟨⟨hdeg, (claim_C5_vulnerability_binning _).1 hdeg⟩,
    hnon, by norm_num,
    (claim_C5_vulnerability_binning _).2 hnon 0 (by norm_num)⟩

/-- Claim C6: the vulnerability index is monotonically non-decreasing in
the vulnerability score: for rows `i`, `j`, if the score of `i` is less
than the score of `j` then the index of `i` is at most the index of `j`. -/
theorem claim_C6_binning_monotone :
    ∀ (scores : List ℚ) (i j : ℕ), i < scores.length → j < scores.length →
      scores.getD i 0 < scores.getD j 0 →
      (vulnIndex scores).getD i 0 ≤ (vulnIndex scores).getD j 0 := by
  intro scores i j hi hj hlt
  unfold vulnIndex
  dsimp only
  split_ifs with h
  · rw [getD_map_of_lt _ scores hi 0 0, getD_map_of_lt _ scores hj 0 0]
  · rw [getD_map_of_lt _ scores hi 0 0, getD_map_of_lt _ scores hj 0 0]
    unfold binLabel
    split_ifs <;> first | rfl | (exfalso; linarith) | norm_num

/-- Witness for C6 at the score list `[0, 1]`, rows 0 and 1. -/
theorem claim_C6_binning_monotone_witness :
    0 < ([(0 : ℚ), 1] : List ℚ).length ∧ 1 < ([(0 : ℚ), 1] : List ℚ).length ∧
      ([(0 : ℚ), 1] : List ℚ).getD 0 0 < ([(0 : ℚ), 1] : List ℚ).getD 1 0 ∧
      (vulnIndex [(0 : ℚ), 1]).getD 0 0 ≤ (vulnIndex [(0 : ℚ), 1]).getD 1 0 := by
  have hlt : ([(0 : ℚ), 1] : List ℚ).getD 0 0 < ([(0 : ℚ), 1] : List ℚ).getD 1 0 := by
    show (0 : ℚ) < 1
    norm_num
  exact ⟨by norm_num, by norm_num, hlt,
    claim_C6_binning_monotone [(0 : ℚ), 1] 0 1 (by norm_num) (by norm_num) hlt⟩

theorem finiteVals_map_infToNan (l : List FVal) :
    finiteVals (l.map infToNan) = finiteVals l := by
  induction l with
  | nil => rfl
  | cons v vs ih =>
    cases v <;> simp only [List.map_cons, finiteVals, List.filterMap_cons, infToNan] <;>
      simpa [finiteVals] using ih

theorem mem_finiteVals {q : ℚ} {l : List FVal} (h : FVal.fin q ∈ l) :
    q ∈ finiteVals l :=
  List.mem_filterMap.2 ⟨FVal.fin q, h, rfl⟩

theorem medianF_fin {l : List FVal} (h : finiteVals l ≠ []) :
    ∃ m : ℚ, medianF l = FVal.fin m := by
  unfold medianF
  have hlen : ((finiteVals l).insertionSort (· ≤ ·)).length ≠ 0 := by
    rw [List.length_insertionSort, ne_eq, List.length_eq_zero]
    exact h
  dsimp only
  rw [if_neg hlen]
  split_ifs <;> exact ⟨_, rfl⟩

theorem mem_map_infToNan_not_inf {w : FVal} {l : List FVal}
    (hw : w ∈ l.map infToNan) : w = FVal.nan ∨ ∃ r : ℚ, w = FVal.fin r := by
  obtain ⟨u, _, rfl⟩ := List.mem_map.1 hw
  cases u with
  | fin r => exact Or.inr ⟨r, rfl⟩
  | pinf => exact Or.inl rfl
  | ninf => exact Or.inl rfl
  | nan => exact Or.inl rfl

theorem inUnitFin_clip (q : ℚ) : inUnitFin (FVal.fin (max 0 (min q 1))) = true := by
  unfold inUnitFin
  refine decide_eq_true ⟨le_max_left _ _, ?_⟩
  exact max_le (by norm_num) (le_trans (min_le_right _ _) (le_refl 1))

theorem normTail_all_unit {v2 : List FVal}
    (hfin : ∀ v ∈ v2, ∃ r : ℚ, v = FVal.fin r) :
    (normTail v2).all inUnitFin = true := by
  unfold normTail
  cases hmm : minMaxFin v2 with
  | none =>
    have hv2 : v2 = [] := by
      cases hv : v2 with
      | nil => rfl
      | cons w ws =>
        obtain ⟨r, hr⟩ := hfin w (hv ▸ List.mem_cons_self w ws)
        have hqmem : r ∈ finiteVals v2 := mem_finiteVals (hr ▸ hv ▸ List.mem_cons_self w ws)
        unfold minMaxFin at hmm
        rcases hfv : finiteVals v2 with _ | ⟨x, xs⟩
        · rw [hfv] at hqmem
          cases hqmem
        · rw [hfv] at hmm
          cases hmm
    subst hv2
    rfl
  | some mnmx =>
    obtain ⟨mn, mx⟩ := mnmx
    dsimp only
    split_ifs
    · rw [List.all_eq_true]
      intro x hx
      obtain ⟨v, _, rfl⟩ := List.mem_map.1 hx
      unfold inUnitFin
      exact decide_eq_true (by norm_num)
    · rw [List.all_eq_true]
      intro x hx
      obtain ⟨v, hv, rfl⟩ := List.mem_map.1 hx
      obtain ⟨r, rfl⟩ := hfin v hv
      exact inUnitFin_clip _

theorem foldl_min_const {c : ℚ} {l : List ℚ} (h : ∀ x ∈ l, x = c) :
    l.foldl min c = c := by
  induction l with
  | nil => rfl
  | cons x xs ih =>
    rw [List.foldl_cons, h x (List.mem_cons_self x xs), min_self]
    exact ih fun y hy => h y (List.mem_cons_of_mem x hy)

theorem foldl_max_const {c : ℚ} {l : List ℚ} (h : ∀ x ∈ l, x = c) :
    l.foldl max c = c := by
  induction l with
  | nil => rfl
  | cons x xs ih =>
    rw [List.foldl_cons, h x (List.mem_cons_self x xs), max_self]
    exact ih fun y hy => h y (List.mem_cons_of_mem x hy)

/-- Counterexample to C7 as stated: on the input column whose cells are all
`+inf`, `normalize_score` does not return values in `[0, 1]` - the column
median of the all-infinite column is NaN, the fill leaves every cell NaN,
and the rescaling arithmetic propagates NaN to every output cell. -/
theorem claim_C7_counterexample :
    normalizeScore [FVal.pinf, FVal.pinf] = [FVal.nan, FVal.nan] ∧
      (normalizeScore [FVal.pinf, FVal.pinf]).all inUnitFin = false := by
  constructor <;> rfl

/-- Claim C7 (amended): `normalize_score` never raises (it is a total
function); an all-null column yields the constant 0.5 vector; a column with
at least one finite entry yields finite values in `[0, 1]`; a constant
finite column yields the constant 0.5 vector.  (A column consisting solely
of infinities yields NaN, which is what the counterexample forces the
amendment to exclude.) -/
theorem claim_C7_normalize_amended :
    ∀ (vals : List FVal),
      (vals.all isNanB = true → normalizeScore vals = vals.map fun _ => FVal.fin (1 / 2)) ∧
      ((∃ q : ℚ, FVal.fin q ∈ vals) → (normalizeScore vals).all inUnitFin = true) ∧
      (∀ c : ℚ, (∀ v ∈ vals, v = FVal.fin c) →
        normalizeScore vals = vals.map fun _ => FVal.fin (1 / 2)) := by
  intro vals
  refine ⟨?_, ?_, ?_⟩
  · intro h
    unfold normalizeScore
    rw [if_pos h]
  · rintro ⟨q, hq⟩
    have hnall : ¬(vals.all isNanB = true) := by
      intro hat
      have := List.all_eq_true.1 hat _ hq
      simp [isNanB] at this
    unfold normalizeScore
    rw [if_neg hnall]
    have hfin1 : q ∈ finiteVals (vals.map infToNan) := by
      rw [finiteVals_map_infToNan]
      exact mem_finiteVals hq
    obtain ⟨m, hm⟩ := medianF_fin (l := vals.map infToNan)
      (fun h0 => by rw [h0] at hfin1; cases hfin1)
    refine normTail_all_unit ?_
    intro v hv
    obtain ⟨w, hw, rfl⟩ := List.mem_map.1 hv
    rcases mem_map_infToNan_not_inf hw with rfl | ⟨r, rfl⟩
    · exact ⟨m, by simp [fillNa, isNanB, hm]⟩
    · exact ⟨r, by simp [fillNa, isNanB]⟩
  · intro c hc
    cases hv : vals with
    | nil => rfl
    | cons w ws =>
      have hnall : ¬(vals.all isNanB = true) := by
        intro hat
        have hwv := hc w (hv ▸ List.mem_cons_self w ws)
        have := List.all_eq_true.1 hat w (hv ▸ List.mem_cons_self w ws)
        rw [hwv] at this
        simp [isNanB] at this
      rw [← hv]
      unfold normalizeScore
      rw [if_neg hnall]
      dsimp only
      have hmap1 : vals.map infToNan = vals := by
        rw [show vals.map infToNan = vals.map id from
          List.map_congr_left fun a ha => by rw [hc a ha]; rfl]
        exact List.map_id vals
      rw [hmap1]
      have hmap2 : vals.map (fillNa (medianF vals)) = vals := by
        rw [show vals.map (fillNa (medianF vals)) = vals.map id from
          List.map_congr_left fun a ha => by rw [hc a ha]; rfl]
        exact List.map_id vals
      rw [hmap2]
      have hfv : finiteVals vals = c :: ws.map fun _ => c := by
        rw [hv]
        unfold finiteVals
        rw [List.filterMap_cons, hc w (hv ▸ List.mem_cons_self w ws)]
        have : ∀ l : List FVal, (∀ v ∈ l, v = FVal.fin c) →
            l.filterMap (fun v => match v with | FVal.fin q => some q | _ => none) =
              l.map fun _ => c := by
          intro l
          induction l with
          | nil => intro _; rfl
          | cons x xs ih =>
            intro hl
            rw [List.filterMap_cons, hl x (List.mem_cons_self x xs), List.map_cons]
            rw [ih fun y hy => hl y (List.mem_cons_of_mem x hy)]
        rw [this ws fun y hy => hc y (hv ▸ List.mem_cons_of_mem w hy)]
      have hconst : ∀ x ∈ (ws.map fun _ => c : List ℚ), x = c := by
        intro x hx
        obtain ⟨_, _, rfl⟩ := List.mem_map.1 hx
        rfl
      unfold normTail minMaxFin
      rw [hfv]
      dsimp only
      rw [foldl_min_const hconst, foldl_max_const hconst]
      rw [if_pos (by ring)]

/-- Witness for C7 (amended): the all-null column `[NaN]`, the two-valued
finite column `[3, 7]`, and the constant column `[5, 5]`. -/
theorem claim_C7_normalize_amended_witness :
    ([FVal.nan] : List FVal).all isNanB = true ∧
      normalizeScore [FVal.nan] = ([FVal.nan] : List FVal).map (fun _ => FVal.fin (1 / 2)) ∧
      FVal.fin 3 ∈ ([FVal.fin 3, FVal.fin 7] : List FVal) ∧
      (normalizeScore [FVal.fin 3, FVal.fin 7]).all inUnitFin = true ∧
      normalizeScore [FVal.fin 5, FVal.fin 5] =
        ([FVal.fin 5, FVal.fin 5] : List FVal).map fun _ => FVal.fin (1 / 2) := by
  refine ⟨rfl, (claim_C7_normalize_amended _).1 rfl, List.mem_cons_self _ _, ?_, ?_⟩
  · exact (claim_C7_normalize_amended _).2.1 ⟨3, List.mem_cons_self _ _⟩
  · refine (claim_C7_normalize_amended _).2.2 5 ?_
    intro v hv
    rcases List.mem_cons.1 hv with rfl | hv2
    · rfl
    · rcases List.mem_cons.1 hv2 with rfl | hv3
      · rfl
      · cases hv3

/-- Claim C4: in the overlap-repair inner loop, once the current tract
intersects a previously accepted tract with intersection area above the
`1e-6` threshold: a raised subtraction gives the offset rectangle built
from the current bounding box shifted by `0.0001 * i`; a subtraction that
empties the geometry gives the `0.001` buffer around the original
centroid (the repair operations carry the fixed buffer radius inside
`centroidBuffer`); a multi-part difference keeps its largest part; and
otherwise the result is exactly the difference.  Tracts that do not
intersect, or whose intersection is below the threshold, are left
unchanged. -/
theorem claim_C4_repair_fallbacks :
    ∀ {G : Type} (ops : RepairOps G) (orig : G) (i : ℕ) (cur prev : G),
      ops.intersects cur prev = true →
      ops.area (ops.intersection cur prev) > 1 / 1000000 →
      (ops.difference cur (ops.intersection cur prev) = none →
        repairStep ops orig i cur prev =
          ops.mkRect ((ops.bounds cur).1 + 1 / 10000 * (i : ℚ))
            ((ops.bounds cur).2.1 + 1 / 10000 * (i : ℚ))
            ((ops.bounds cur).2.2.1 + 1 / 10000 * (i : ℚ))
            ((ops.bounds cur).2.2.2 + 1 / 10000 * (i : ℚ))) ∧
      (∀ d : G, ops.difference cur (ops.intersection cur prev) = some d →
        (ops.isEmpty d = true → repairStep ops orig i cur prev = ops.centroidBuffer orig) ∧
        (ops.isEmpty d = false → ops.isMulti d = true →
          repairStep ops orig i cur prev = ops.largest d) ∧
        (ops.isEmpty d = false → ops.isMulti d = false →
          repairStep ops orig i cur prev = d)) := by
  intro G ops orig i cur prev hint harea
  constructor
  · intro hdiff
    simp [repairStep, hint, harea, hdiff]
    intro hle
    exact absurd hle (by simpa using harea.not_le)
  · intro d hdiff
    refine ⟨?_, ?_, ?_⟩
    · intro hempty
      simp [repairStep, hint, harea, hdiff, hempty]
      intro hle
      exact absurd hle (by simpa using harea.not_le)
    · intro hempty hmulti
      simp [repairStep, hint, harea, hdiff, hempty, hmulti]
      intro hle
      exact absurd hle (by simpa using harea.not_le)
    · intro hempty hmulti
      simp [repairStep, hint, harea, hdiff, hempty, hmulti]
      intro hle
      exact absurd hle (by simpa using harea.not_le)

/-- Witness for C4: under `opsW` (subtraction raises) the repaired tract 5
against tract 6 at loop index 0 is the encoded offset rectangle; under
`opsW2` (subtraction succeeds and empties) tract 5 with original geometry
7 becomes the encoded centroid buffer `7 + 500`. -/
theorem claim_C4_repair_fallbacks_witness :
    opsW.intersects 5 6 = true ∧ opsW.area (opsW.intersection 5 6) > 1 / 1000000 ∧
      repairStep opsW 7 0 5 6 =
        opsW.mkRect ((opsW.bounds 5).1 + 1 / 10000 * ((0 : ℕ) : ℚ))
          ((opsW.bounds 5).2.1 + 1 / 10000 * ((0 : ℕ) : ℚ))
          ((opsW.bounds 5).2.2.1 + 1 / 10000 * ((0 : ℕ) : ℚ))
          ((opsW.bounds 5).2.2.2 + 1 / 10000 * ((0 : ℕ) : ℚ)) ∧
      repairStep opsW2 7 0 5 6 = opsW2.centroidBuffer 7 := by
  have h1 : opsW.intersects 5 6 = true := rfl
  have h2 : opsW.area (opsW.intersection 5 6) > 1 / 1000000 := by norm_num [opsW]
  have h2b : opsW2.area (opsW2.intersection 5 6) > 1 / 1000000 := by norm_num [opsW2]
  refine ⟨h1, h2, ?_, ?_⟩
  · exact (claim_C4_repair_fallbacks opsW 7 0 5 6 h1 h2).1 rfl
  · exact (((claim_C4_repair_fallbacks opsW2 7 0 5 6 rfl h2b).2 77) rfl).1 rfl

/-- Claim C10: the first tract in the repair order is never modified - the
output geometry of the first tract equals its input geometry after the
initial zero-width-buffer validity fix (the `buffer(0)` fix is assumed to
produce a valid geometry, so the final validity-fix pass leaves it
unchanged). -/
theorem claim_C10_first_tract_unchanged :
    ∀ {G : Type} (ops : RepairOps G) (g0 : G) (rest : List G),
      ops.isValid (fixValid ops g0) = true →
      (processNoOverlap ops (g0 :: rest)).head? = some (fixValid ops g0) := by
  intro G ops g0 rest hvalid
  have hgo : ∀ (l acc : List G) (i : ℕ), acc ≠ [] →
      (repairGo ops acc i l).head? = acc.head? := by
    intro l
    induction l with
    | nil => intro acc i _; rfl
    | cons g gs ih =>
      intro acc i hacc
      rw [repairGo, ih (acc ++ [repairTract ops i acc g]) (i + 1) (by simp)]
      cases acc with
      | nil => exact absurd rfl hacc
      | cons a as => rfl
  have hidem : fixValid ops (fixValid ops g0) = fixValid ops g0 := by
    conv_lhs => rw [fixValid]
    rw [if_pos hvalid]
  unfold processNoOverlap
  rw [List.head?_map, List.map_cons]
  rw [show repairGo ops [] 0 (fixValid ops g0 :: rest.map (fixValid ops)) =
      repairGo ops [fixValid ops g0] 1 (rest.map (fixValid ops)) from rfl]
  rw [hgo _ _ _ (by simp)]
  show some (fixValid ops (fixValid ops g0)) = some (fixValid ops g0)
  rw [hidem]

/-- Witness for C10: under the trivial operations `opsW` the first tract
`5` is returned unchanged (it is valid, so the validity fix is the
identity on it). -/
theorem claim_C10_first_tract_unchanged_witness :
    opsW.isValid (fixValid opsW 5) = true ∧
      (processNoOverlap opsW [5, 6, 7]).head? = some (fixValid opsW 5) :=
  ⟨rfl, claim_C10_first_tract_unchanged opsW 5 [6, 7] rfl⟩

theorem padHex_length_ge (points : List Pt) (n : ℕ) :
    ∀ geoms : List CG, n ≤ points.length → n ≤ (padHex points n geoms).length := by
  have key : ∀ k : ℕ, ∀ geoms : List CG, n - geoms.length ≤ k → n ≤ points.length →
      n ≤ (padHex points n geoms).length := by
    intro k
    induction k with
    | zero =>
      intro geoms hk hnp
      rw [padHex]
      have hng : ¬(geoms.length < n ∧ geoms.length < points.length) := by omega
      rw [dif_neg hng]
      omega
    | succ k ih =>
      intro geoms hk hnp
      rw [padHex]
      by_cases hc : geoms.length < n ∧ geoms.length < points.length
      · rw [dif_pos hc]
        apply ih
        · simp only [List.length_append, List.length_cons, List.length_nil]
          omega
        · exact hnp
      · rw [dif_neg hc]
        omega
  exact fun geoms hnp => key (n - geoms.length) geoms le_rfl hnp

/-- Counterexample to C3 as stated: with target count `N = 250` (one of the
claim's tested values) the grid-partition synthesizer cannot return 250
polygons for any boundary - it truncates to `min(len(data), 50)` cells. -/
theorem claim_C3_counterexample :
    (gridTracts defaultPred [((0 : ℚ), (0 : ℚ)), (1, 0), (1, 1), (0, 1), (0, 0)]
      250).length ≠ 250 := by
  have h : (gridTracts defaultPred [((0 : ℚ), (0 : ℚ)), (1, 0), (1, 1), (0, 1), (0, 0)]
      250).length ≤ 50 := by
    unfold gridTracts
    dsimp only
    rw [List.length_take]
    omega
  omega

/-- Claim C3 (amended): the padded Voronoi synthesizer
(`create_non_overlapping_hartford_map`) returns exactly `N = len(data)`
polygons for every input; the grid-partition synthesizer
(`create_correct_hartford_map`) returns at most `min(N, 50)` polygons with
no padding, and can return fewer (the counterexample shows `N = 250` is
unreachable). -/
theorem claim_C3_count_amended :
    (∀ (pred : GeoPred) (west south east north : ℚ) (raws : List Pt) (vorPolys : List CG),
      (voroTractsPadded pred west south east north raws vorPolys).length = raws.length) ∧
    (∀ (pred : GeoPred) (bvs : List Pt) (dataLen : ℕ),
      (gridTracts pred bvs dataLen).length ≤ min dataLen 50) := by
  constructor
  · intro pred west south east north raws vorPolys
    unfold voroTractsPadded
    dsimp only
    rw [List.length_take]
    have hlm : (raws.map (clampPt west south east north)).length = raws.length :=
      List.length_map _ _
    have h := padHex_length_ge (raws.map (clampPt west south east north))
      (raws.map (clampPt west south east north)).length
      (extractClips pred vorPolys
        (CG.poly [(west, south), (east, south), (east, north), (west, north), (west, south)]))
      le_rfl
    omega
  · intro pred bvs dataLen
    unfold gridTracts
    dsimp only
    rw [List.length_take]
    omega

theorem rayCast_rect (l r b t : ℚ) (p : Pt) (hlr : l ≤ r) (hbt : b ≤ t) :
    rayCast [(l, b), (r, b), (r, t), (l, t), (l, b)] p = true ↔
      (l ≤ p.1 ∧ p.1 < r ∧ b ≤ p.2 ∧ p.2 < t) := by
  have hrot : ([(l, b), (r, b), (r, t), (l, t), (l, b)] : List Pt).rotate 1 =
      [(r, b), (r, t), (l, t), (l, b), (l, b)] := rfl
  unfold rayCast
  rw [hrot]
  dsimp only [List.zip, List.zipWith, List.foldl]
  simp only [edgeCross]
  dsimp only
  simp only [sub_self, mul_zero, zero_div, add_zero, zero_mul, bne_self_eq_false,
    Bool.false_and, if_false]
  by_cases h1 : p.2 < b <;> by_cases h2 : p.2 < t <;>
    by_cases h3 : p.1 < l <;> by_cases h4 : p.1 < r <;>
    simp [h1, h2, h3, h4] <;>
    (try (exfalso; linarith)) <;>
    (try linarith) <;>
    (try exact ⟨by linarith, by linarith⟩)

theorem containsB_interS_left {a b : CG} {p : Pt}
    (h : containsB (CG.interS a b) p = true) : containsB a p = true := by
  have h' : (containsB a p && containsB b p) = true := h
  exact (Bool.and_eq_true _ _ ▸ h').1

theorem containsB_interS_right {a b : CG} {p : Pt}
    (h : containsB (CG.interS a b) p = true) : containsB b p = true := by
  have h' : (containsB a p && containsB b p) = true := h
  exact (Bool.and_eq_true _ _ ▸ h').2

theorem containsB_empty_poly (p : Pt) : containsB (CG.poly []) p = false := rfl

theorem boundsOf_le (vs : List Pt) :
    (boundsOf vs).1 ≤ (boundsOf vs).2.2.1 ∧ (boundsOf vs).2.1 ≤ (boundsOf vs).2.2.2 := by
  cases vs with
  | nil => exact ⟨le_refl 0, le_refl 0⟩
  | cons v rest =>
    have hx1 : (rest.map Prod.fst).foldl min v.1 = rest.foldl (fun a w => min a w.1) v.1 :=
      List.foldl_map _ _ _ _
    have hx2 : (rest.map Prod.fst).foldl max v.1 = rest.foldl (fun a w => max a w.1) v.1 :=
      List.foldl_map _ _ _ _
    have hy1 : (rest.map Prod.snd).foldl min v.2 = rest.foldl (fun a w => min a w.2) v.2 :=
      List.foldl_map _ _ _ _
    have hy2 : (rest.map Prod.snd).foldl max v.2 = rest.foldl (fun a w => max a w.2) v.2 :=
      List.foldl_map _ _ _ _
    constructor
    · show rest.foldl (fun a w => min a w.1) v.1 ≤ rest.foldl (fun a w => max a w.1) v.1
      rw [← hx1, ← hx2]
      exact le_trans (foldl_min_le_init _ _) (init_le_foldl_max _ _)
    · show rest.foldl (fun a w => min a w.2) v.2 ≤ rest.foldl (fun a w => max a w.2) v.2
      rw [← hy1, ← hy2]
      exact le_trans (foldl_min_le_init _ _) (init_le_foldl_max _ _)

theorem gridCell_mem_iff (west south cw ch : ℚ) (hcw : 0 ≤ cw) (hch : 0 ≤ ch)
    (rc : ℕ × ℕ) (p : Pt) :
    rayCast (gridCell west south cw ch rc) p = true ↔
      (west + (rc.2 : ℚ) * cw ≤ p.1 ∧ p.1 < west + ((rc.2 : ℚ) + 1) * cw ∧
        south + (rc.1 : ℚ) * ch ≤ p.2 ∧ p.2 < south + ((rc.1 : ℚ) + 1) * ch) := by
  unfold gridCell
  exact rayCast_rect _ _ _ _ p (by nlinarith) (by nlinarith)

theorem gridKeep_sub {pred : GeoPred} (hL : LargestSub pred) {boundary : CG}
    {west south cw ch : ℚ} {rc : ℕ × ℕ} {t : CG}
    (h : gridKeep pred boundary west south cw ch rc = some t) (p : Pt)
    (hp : containsB t p = true) :
    rayCast (gridCell west south cw ch rc) p = true ∧ containsB boundary p = true := by
  unfold gridKeep at h
  dsimp only at h
  split_ifs at h with hcond hm
  · injection h with ht
    subst ht
    have hsub := hL _ _ hp
    exact ⟨containsB_interS_left hsub, containsB_interS_right hsub⟩
  · injection h with ht
    subst ht
    exact ⟨containsB_interS_left hp, containsB_interS_right hp⟩

theorem gridCell_disjoint {west south cw ch : ℚ} (hcw : 0 ≤ cw) (hch : 0 ≤ ch)
    {rc rc' : ℕ × ℕ} (hne : rc ≠ rc') {p : Pt}
    (h1 : rayCast (gridCell west south cw ch rc) p = true)
    (h2 : rayCast (gridCell west south cw ch rc') p = true) : False := by
  rw [gridCell_mem_iff west south cw ch hcw hch rc p] at h1
  rw [gridCell_mem_iff west south cw ch hcw hch rc' p] at h2
  obtain ⟨ha1, ha2, ha3, ha4⟩ := h1
  obtain ⟨hb1, hb2, hb3, hb4⟩ := h2
  have hcase : rc.1 ≠ rc'.1 ∨ rc.2 ≠ rc'.2 := by
    by_contra hc
    push_neg at hc
    exact hne (Prod.ext hc.1 hc.2)
  rcases hcase with hc | hc
  · rcases Nat.lt_or_ge rc.1 rc'.1 with hlt | hge
    · have hcast : ((rc.1 : ℚ) + 1) ≤ (rc'.1 : ℚ) := by exact_mod_cast hlt
      linarith [mul_le_mul_of_nonneg_right hcast hch]
    · have hlt2 : rc'.1 < rc.1 := lt_of_le_of_ne hge (Ne.symm hc)
      have hcast : ((rc'.1 : ℚ) + 1) ≤ (rc.1 : ℚ) := by exact_mod_cast hlt2
      linarith [mul_le_mul_of_nonneg_right hcast hch]
  · rcases Nat.lt_or_ge rc.2 rc'.2 with hlt | hge
    · have hcast : ((rc.2 : ℚ) + 1) ≤ (rc'.2 : ℚ) := by exact_mod_cast hlt
      linarith [mul_le_mul_of_nonneg_right hcast hcw]
    · have hlt2 : rc'.2 < rc.2 := lt_of_le_of_ne hge (Ne.symm hc)
      have hcast : ((rc'.2 : ℚ) + 1) ≤ (rc.2 : ℚ) := by exact_mod_cast hlt2
      linarith [mul_le_mul_of_nonneg_right hcast hcw]

theorem gridPairs_nodup (rows cols : ℕ) : (gridPairs rows cols).Nodup := by
  unfold gridPairs
  rw [List.nodup_flatMap]
  constructor
  · intro r _
    exact (List.nodup_range cols).map fun a b hab => congrArg Prod.snd hab
  · refine (List.nodup_range rows).imp ?_
    intro a b hab
    intro x hxa hxb
    obtain ⟨c, _, rfl⟩ := List.mem_map.1 hxa
    obtain ⟨c', _, hc'⟩ := List.mem_map.1 hxb
    exact hab (congrArg Prod.fst hc'.symm)

theorem DisjB_symm {a b : CG} (h : DisjB a b) : DisjB b a :=
  fun p hc => h p ⟨hc.2, hc.1⟩

theorem pairwise_disj_getD {L : List CG} (hpw : L.Pairwise DisjB) {i j : ℕ}
    (hne : i ≠ j) (p : Pt) :
    ¬(containsB (L.getD i (CG.poly [])) p = true ∧
      containsB (L.getD j (CG.poly [])) p = true) := by
  intro hcon
  by_cases hi : i < L.length
  · by_cases hj : j < L.length
    · rw [List.getD_eq_getElem _ _ hi, List.getD_eq_getElem _ _ hj] at hcon
      rcases Nat.lt_or_ge i j with hij | hij
      · exact List.pairwise_iff_get.1 hpw ⟨i, hi⟩ ⟨j, hj⟩ hij p hcon
      · have hij' : j < i := lt_of_le_of_ne hij (Ne.symm hne)
        exact List.pairwise_iff_get.1 hpw ⟨j, hj⟩ ⟨i, hi⟩ hij' p ⟨hcon.2, hcon.1⟩
    · rw [List.getD_eq_default _ _ (le_of_not_lt hj), containsB_empty_poly] at hcon
      exact Bool.false_ne_true hcon.2
  · rw [List.getD_eq_default _ _ (le_of_not_lt hi), containsB_empty_poly] at hcon
    exact Bool.false_ne_true hcon.1

theorem gridTracts_pairwise {pred : GeoPred} (hL : LargestSub pred)
    (bvs : List Pt) (dataLen : ℕ) : (gridTracts pred bvs dataLen).Pairwise DisjB := by
  unfold gridTracts
  dsimp only
  refine List.Pairwise.sublist (List.take_sublist _ _) ?_
  refine List.pairwise_filterMap.2 ?_
  refine List.Pairwise.imp ?_ (gridPairs_nodup _ _)
  intro rc rc' hne t ht t' ht' p hcon
  have hcw : 0 ≤ ((boundsOf bvs).2.2.1 - (boundsOf bvs).1) /
      ((ceilSqrtQ ((min dataLen 50 : ℕ) * (6 / 5)) : ℕ) : ℚ) :=
    div_nonneg (sub_nonneg.2 (boundsOf_le bvs).1) (Nat.cast_nonneg _)
  have hch : 0 ≤ ((boundsOf bvs).2.2.2 - (boundsOf bvs).2.1) /
      (((min dataLen 50 + ceilSqrtQ ((min dataLen 50 : ℕ) * (6 / 5)) - 1) /
        ceilSqrtQ ((min dataLen 50 : ℕ) * (6 / 5)) : ℕ) : ℚ) :=
    div_nonneg (sub_nonneg.2 (boundsOf_le bvs).2) (Nat.cast_nonneg _)
  obtain ⟨hin1, _⟩ := gridKeep_sub hL (Option.mem_def.1 ht) p hcon.1
  obtain ⟨hin2, _⟩ := gridKeep_sub hL (Option.mem_def.1 ht') p hcon.2
  exact gridCell_disjoint hcw hch hne hin1 hin2

theorem strictClosest_disjoint {sites : List Pt} {i j : ℕ} (hi : i < sites.length)
    (hj : j < sites.length) (hne : i ≠ j) (p : Pt)
    (h1 : strictClosest sites i p = true) (h2 : strictClosest sites j p = true) :
    False := by
  unfold strictClosest at h1 h2
  have e1 := List.all_eq_true.1 h1 j (List.mem_range.2 hj)
  have e2 := List.all_eq_true.1 h2 i (List.mem_range.2 hi)
  rw [Bool.or_eq_true] at e1 e2
  rcases e1 with e1 | e1
  · exact hne (eq_of_beq e1).symm
  · rcases e2 with e2 | e2
    · exact hne (eq_of_beq e2)
    · have q1 := of_decide_eq_true e1
      have q2 := of_decide_eq_true e2
      linarith

theorem geoVoroTract_main_sub {pred : GeoPred} (hL : LargestSub pred)
    {sites : List Pt} {boundary : CG} {i : ℕ}
    (hemp : pred.isEmpty (CG.interS (CG.voro sites i) boundary) = false)
    (hval : pred.isValid (CG.interS (CG.voro sites i) boundary) = true)
    (p : Pt) (h : containsB (geoVoroTract pred sites boundary false i) p = true) :
    strictClosest sites i p = true ∧ containsB boundary p = true := by
  unfold geoVoroTract at h
  rw [if_neg Bool.false_ne_true] at h
  dsimp only at h
  rw [hemp, hval] at h
  simp only [Bool.not_true, Bool.or_false] at h
  rw [if_neg Bool.false_ne_true] at h
  by_cases hm : pred.isMulti (CG.interS (CG.voro sites i) boundary) = true
  · rw [if_pos hm] at h
    have hsub := hL _ _ h
    exact ⟨containsB_interS_left hsub, containsB_interS_right hsub⟩
  · rw [if_neg hm] at h
    exact ⟨containsB_interS_left h, containsB_interS_right h⟩

theorem geoVoroTract_sub_boundary {pred : GeoPred} (hL : LargestSub pred)
    {sites : List Pt} {boundary : CG} {ub : Bool} {i : ℕ} (p : Pt)
    (h : containsB (geoVoroTract pred sites boundary ub i) p = true) :
    containsB boundary p = true := by
  unfold geoVoroTract at h
  cases ub <;> dsimp only at h <;> split_ifs at h <;>
    first
      | exact containsB_interS_right (hL _ _ h)
      | exact containsB_interS_right h

theorem clipKeep_sub {pred : GeoPred} (hL : LargestSub pred) {boundary g t : CG}
    (h : clipKeep pred boundary g = some t) (p : Pt)
    (hp : containsB t p = true) :
    containsB g p = true ∧ containsB boundary p = true := by
  unfold clipKeep at h
  dsimp only at h
  split_ifs at h with h1 h2 h3 h4
  · injection h with ht
    subst ht
    exact ⟨containsB_interS_left hp, containsB_interS_right hp⟩
  · injection h with ht
    subst ht
    have hsub := hL _ _ hp
    exact ⟨containsB_interS_left hsub, containsB_interS_right hsub⟩

theorem extractClips_pairwise {pred : GeoPred} (hL : LargestSub pred)
    {vorPolys : List CG} {boundary : CG} (hpw : vorPolys.Pairwise DisjB) :
    (extractClips pred vorPolys boundary).Pairwise DisjB := by
  unfold extractClips
  refine List.pairwise_filterMap.2 ?_
  refine List.Pairwise.imp ?_ hpw
  intro g g' hgg t ht t' ht' p hcon
  obtain ⟨hg, _⟩ := clipKeep_sub hL (Option.mem_def.1 ht) p hcon.1
  obtain ⟨hg', _⟩ := clipKeep_sub hL (Option.mem_def.1 ht') p hcon.2
  exact hgg p ⟨hg, hg'⟩

theorem geoVoroTracts_getD {pred : GeoPred} {sites : List Pt} {ubFlags : List Bool}
    {boundary : CG} {i : ℕ} (hi : i < sites.length) :
    (geoVoroTracts pred sites ubFlags boundary).getD i (CG.poly []) =
      geoVoroTract pred sites boundary (ubFlags.getD i false) i := by
  unfold geoVoroTracts
  have harg : (List.range sites.length).getD i 0 = i := by
    rw [List.getD_eq_getElem _ _ (by simpa using hi), List.getElem_range]
  rw [getD_map_of_lt _ _ (by simpa using hi) (CG.poly []) 0, harg]

theorem geoVoroTracts_length (pred : GeoPred) (sites : List Pt) (ubFlags : List Bool)
    (boundary : CG) :
    (geoVoroTracts pred sites ubFlags boundary).length = sites.length := by
  unfold geoVoroTracts
  rw [List.length_map, List.length_range]

/-- Claim C1 (amended): polygons produced without the fallback paths have
pairwise disjoint interiors.  (a) Any two distinct grid-partition outputs
are interior-disjoint (distinct grid cells have disjoint interiors and
outputs are clipped to their cells).  (b) Any two distinct scipy-Voronoi
outputs whose cells are bounded and whose clipped cells are non-empty and
valid (no disk fallback on either path) are interior-disjoint (distinct
open Voronoi cells are disjoint).  (c) Any two distinct clipped cells kept
by the `voronoi_diagram` extraction loop are interior-disjoint whenever the
library's cells are pairwise interior-disjoint (which Voronoi cells are).
The disk/hexagon fallback substitutes are NOT covered: the counterexample
shows they can overlap another output with positive area. -/
theorem claim_C1_nonoverlap_amended :
    (∀ (pred : GeoPred) (bvs : List Pt) (dataLen : ℕ), LargestSub pred →
      ∀ i j : ℕ, i ≠ j → ∀ p : Pt,
        ¬(containsB ((gridTracts pred bvs dataLen).getD i (CG.poly [])) p = true ∧
          containsB ((gridTracts pred bvs dataLen).getD j (CG.poly [])) p = true)) ∧
    (∀ (pred : GeoPred) (sites : List Pt) (ubFlags : List Bool) (boundary : CG),
      LargestSub pred →
      ∀ i j : ℕ, i ≠ j →
        ubFlags.getD i false = false → ubFlags.getD j false = false →
        pred.isEmpty (CG.interS (CG.voro sites i) boundary) = false →
        pred.isValid (CG.interS (CG.voro sites i) boundary) = true →
        pred.isEmpty (CG.interS (CG.voro sites j) boundary) = false →
        pred.isValid (CG.interS (CG.voro sites j) boundary) = true →
        ∀ p : Pt,
          ¬(containsB ((geoVoroTracts pred sites ubFlags boundary).getD i
              (CG.poly [])) p = true ∧
            containsB ((geoVoroTracts pred sites ubFlags boundary).getD j
              (CG.poly [])) p = true)) ∧
    (∀ (pred : GeoPred) (vorPolys : List CG) (boundary : CG), LargestSub pred →
      vorPolys.Pairwise DisjB →
      ∀ i j : ℕ, i ≠ j → ∀ p : Pt,
        ¬(containsB ((extractClips pred vorPolys boundary).getD i (CG.poly [])) p = true ∧
          containsB ((extractClips pred vorPolys boundary).getD j (CG.poly [])) p = true)) := by
  refine ⟨?_, ?_, ?_⟩
  · intro pred bvs dataLen hL i j hne p
    exact pairwise_disj_getD (gridTracts_pairwise hL bvs dataLen) hne p
  · intro pred sites ubFlags boundary hL i j hne hubi hubj hempi hvali hempj hvalj p hcon
    by_cases hi : i < sites.length
    · by_cases hj : j < sites.length
      · rw [geoVoroTracts_getD hi, hubi] at hcon
        rw [geoVoroTracts_getD hj, hubj] at hcon
        obtain ⟨hc1, _⟩ := geoVoroTract_main_sub hL hempi hvali p hcon.1
        obtain ⟨hc2, _⟩ := geoVoroTract_main_sub hL hempj hvalj p hcon.2
        exact strictClosest_disjoint hi hj hne p hc1 hc2
      · have hdef : (geoVoroTracts pred sites ubFlags boundary).getD j (CG.poly []) =
            CG.poly [] :=
          List.getD_eq_default _ _ (by
            rw [geoVoroTracts_length]
            exact le_of_not_lt hj)
        rw [hdef, containsB_empty_poly] at hcon
        exact Bool.false_ne_true hcon.2
    · have hdef : (geoVoroTracts pred sites ubFlags boundary).getD i (CG.poly []) =
          CG.poly [] :=
        List.getD_eq_default _ _ (by
          rw [geoVoroTracts_length]
          exact le_of_not_lt hi)
      rw [hdef, containsB_empty_poly] at hcon
      exact Bool.false_ne_true hcon.1
  · intro pred vorPolys boundary hL hpw i j hne p
    exact pairwise_disj_getD (extractClips_pairwise hL hpw) hne p

/-- Counterexample to C1 as stated: a run of the scipy-Voronoi algorithm on
three seed sites, two of which are `0.001` apart, inside a large square
boundary.  All three sites are vertices of their convex hull, so scipy
reports all three Voronoi regions as unbounded (`-1 in region`) and the
code substitutes the `0.003`-radius disk fallback for each; the two nearby
disks share the open neighborhood of the midpoint `(1/2000, 0)`, so the
first two returned polygons are distinct but their interiors overlap (the
overlap contains a disk of radius `0.0025`, far above the `1e-6`-scale
epsilon).  The executable predicate record is consistent with the real run:
each clipped fallback buffer here is a single valid non-empty polygon. -/
theorem claim_C1_counterexample :
    ((geoVoroTracts defaultPred
        [((0 : ℚ), (0 : ℚ)), ((1 : ℚ) / 1000, 0), (0, (1 : ℚ) / 2)] [true, true, true]
        (CG.poly [((-1 : ℚ), (-1 : ℚ)), (1, -1), (1, 1), (-1, 1), (-1, -1)])).getD 0
          (CG.poly []) ≠
      (geoVoroTracts defaultPred
        [((0 : ℚ), (0 : ℚ)), ((1 : ℚ) / 1000, 0), (0, (1 : ℚ) / 2)] [true, true, true]
        (CG.poly [((-1 : ℚ), (-1 : ℚ)), (1, -1), (1, 1), (-1, 1), (-1, -1)])).getD 1
          (CG.poly [])) ∧
    containsB ((geoVoroTracts defaultPred
        [((0 : ℚ), (0 : ℚ)), ((1 : ℚ) / 1000, 0), (0, (1 : ℚ) / 2)] [true, true, true]
        (CG.poly [((-1 : ℚ), (-1 : ℚ)), (1, -1), (1, 1), (-1, 1), (-1, -1)])).getD 0
          (CG.poly [])) ((1 / 2000 : ℚ), 0) = true ∧
    containsB ((geoVoroTracts defaultPred
        [((0 : ℚ), (0 : ℚ)), ((1 : ℚ) / 1000, 0), (0, (1 : ℚ) / 2)] [true, true, true]
        (CG.poly [((-1 : ℚ), (-1 : ℚ)), (1, -1), (1, 1), (-1, 1), (-1, -1)])).getD 1
          (CG.poly [])) ((1 / 2000 : ℚ), 0) = true := by
  have h0 : (geoVoroTracts defaultPred
      [((0 : ℚ), (0 : ℚ)), ((1 : ℚ) / 1000, 0), (0, (1 : ℚ) / 2)] [true, true, true]
      (CG.poly [((-1 : ℚ), (-1 : ℚ)), (1, -1), (1, 1), (-1, 1), (-1, -1)])).getD 0
        (CG.poly []) =
      CG.interS (CG.disk ((0 : ℚ), (0 : ℚ)) (3 / 1000))
        (CG.poly [((-1 : ℚ), (-1 : ℚ)), (1, -1), (1, 1), (-1, 1), (-1, -1)]) := rfl
  have h1 : (geoVoroTracts defaultPred
      [((0 : ℚ), (0 : ℚ)), ((1 : ℚ) / 1000, 0), (0, (1 : ℚ) / 2)] [true, true, true]
      (CG.poly [((-1 : ℚ), (-1 : ℚ)), (1, -1), (1, 1), (-1, 1), (-1, -1)])).getD 1
        (CG.poly []) =
      CG.interS (CG.disk (((1 : ℚ) / 1000, (0 : ℚ))) (3 / 1000))
        (CG.poly [((-1 : ℚ), (-1 : ℚ)), (1, -1), (1, 1), (-1, 1), (-1, -1)]) := rfl
  have hray : rayCast [((-1 : ℚ), (-1 : ℚ)), (1, -1), (1, 1), (-1, 1), (-1, -1)]
      ((1 / 2000 : ℚ), 0) = true := by
    norm_num [rayCast, edgeCross, List.rotate]
  refine ⟨?_, ?_, ?_⟩
  · intro heq
    rw [h0, h1] at heq
    injection heq with ha hb
    injection ha with hc hr
    have := congrArg Prod.fst hc
    norm_num at this
  · rw [h0]
    show (containsB (CG.disk ((0 : ℚ), (0 : ℚ)) (3 / 1000)) ((1 / 2000 : ℚ), 0) &&
      rayCast [((-1 : ℚ), (-1 : ℚ)), (1, -1), (1, 1), (-1, 1), (-1, -1)]
        ((1 / 2000 : ℚ), 0)) = true
    rw [Bool.and_eq_true]
    refine ⟨?_, hray⟩
    show decide (sqDist ((1 / 2000 : ℚ), 0) ((0 : ℚ), (0 : ℚ)) < 3 / 1000 * (3 / 1000)) = true
    rw [decide_eq_true_eq]
    norm_num [sqDist]
  · rw [h1]
    show (containsB (CG.disk (((1 : ℚ) / 1000, (0 : ℚ))) (3 / 1000)) ((1 / 2000 : ℚ), 0) &&
      rayCast [((-1 : ℚ), (-1 : ℚ)), (1, -1), (1, 1), (-1, 1), (-1, -1)]
        ((1 / 2000 : ℚ), 0)) = true
    rw [Bool.and_eq_true]
    refine ⟨?_, hray⟩
    show decide (sqDist ((1 / 2000 : ℚ), 0) (((1 : ℚ) / 1000, (0 : ℚ))) <
      3 / 1000 * (3 / 1000)) = true
    rw [decide_eq_true_eq]
    norm_num [sqDist]

/-- Witness for C1 (amended), applying all three parts at concrete runs:
the grid run on the unit square with two tracts, the scipy-Voronoi run on
two sites with bounded cells, and the extraction run on a single library
cell. -/
theorem claim_C1_nonoverlap_amended_witness :
    (¬(containsB ((gridTracts defaultPred
          [((0 : ℚ), (0 : ℚ)), (1, 0), (1, 1), (0, 1), (0, 0)] 2).getD 0 (CG.poly []))
            ((1 / 4 : ℚ), (1 / 2 : ℚ)) = true ∧
        containsB ((gridTracts defaultPred
          [((0 : ℚ), (0 : ℚ)), (1, 0), (1, 1), (0, 1), (0, 0)] 2).getD 1 (CG.poly []))
            ((1 / 4 : ℚ), (1 / 2 : ℚ)) = true)) ∧
    (¬(containsB ((geoVoroTracts defaultPred [((0 : ℚ), (0 : ℚ)), ((0 : ℚ), (1 : ℚ))]
          [false, false]
          (CG.poly [((-1 : ℚ), (-1 : ℚ)), (1, -1), (1, 1), (-1, 1), (-1, -1)])).getD 0
            (CG.poly [])) ((0 : ℚ), (0 : ℚ)) = true ∧
        containsB ((geoVoroTracts defaultPred [((0 : ℚ), (0 : ℚ)), ((0 : ℚ), (1 : ℚ))]
          [false, false]
          (CG.poly [((-1 : ℚ), (-1 : ℚ)), (1, -1), (1, 1), (-1, 1), (-1, -1)])).getD 1
            (CG.poly [])) ((0 : ℚ), (0 : ℚ)) = true)) ∧
    (¬(containsB ((extractClips defaultPred
          [CG.poly [((0 : ℚ), (0 : ℚ)), (1, 0), (1, 1), (0, 1), (0, 0)]]
          (CG.poly [((0 : ℚ), (0 : ℚ)), (1, 0), (1, 1), (0, 1), (0, 0)])).getD 0
            (CG.poly [])) ((1 / 4 : ℚ), (1 / 2 : ℚ)) = true ∧
        containsB ((extractClips defaultPred
          [CG.poly [((0 : ℚ), (0 : ℚ)), (1, 0), (1, 1), (0, 1), (0, 0)]]
          (CG.poly [((0 : ℚ), (0 : ℚ)), (1, 0), (1, 1), (0, 1), (0, 0)])).getD 1
            (CG.poly [])) ((1 / 4 : ℚ), (1 / 2 : ℚ)) = true)) := by
  refine ⟨?_, ?_, ?_⟩
  · exact claim_C1_nonoverlap_amended.1 defaultPred
      [((0 : ℚ), (0 : ℚ)), (1, 0), (1, 1), (0, 1), (0, 0)] 2 defaultPred_largestSub
      0 1 (by omega) ((1 / 4 : ℚ), (1 / 2 : ℚ))
  · exact claim_C1_nonoverlap_amended.2.1 defaultPred
      [((0 : ℚ), (0 : ℚ)), ((0 : ℚ), (1 : ℚ))] [false, false]
      (CG.poly [((-1 : ℚ), (-1 : ℚ)), (1, -1), (1, 1), (-1, 1), (-1, -1)])
      defaultPred_largestSub 0 1 (by omega) rfl rfl rfl rfl rfl rfl ((0 : ℚ), (0 : ℚ))
  · exact claim_C1_nonoverlap_amended.2.2 defaultPred
      [CG.poly [((0 : ℚ), (0 : ℚ)), (1, 0), (1, 1), (0, 1), (0, 0)]]
      (CG.poly [((0 : ℚ), (0 : ℚ)), (1, 0), (1, 1), (0, 1), (0, 0)])
      defaultPred_largestSub (List.pairwise_singleton _ _) 0 1 (by omega)
      ((1 / 4 : ℚ), (1 / 2 : ℚ))

theorem sub_getD {L : List CG} {bd : CG} (h : ∀ t ∈ L, SubB t bd) (i : ℕ) (p : Pt)
    (hp : containsB (L.getD i (CG.poly [])) p = true) : containsB bd p = true := by
  by_cases hi : i < L.length
  · exact h _ (getD_mem_of_lt hi _) p hp
  · rw [List.getD_eq_default _ _ (le_of_not_lt hi), containsB_empty_poly] at hp
    exact absurd hp Bool.false_ne_true

theorem gridTracts_sub_boundary {pred : GeoPred} (hL : LargestSub pred)
    (bvs : List Pt) (dataLen : ℕ) :
    ∀ t ∈ gridTracts pred bvs dataLen, SubB t (CG.poly bvs) := by
  intro t ht p hp
  unfold gridTracts at ht
  dsimp only at ht
  have ht2 := (List.take_sublist _ _).subset ht
  obtain ⟨rc, _, hkeep⟩ := List.mem_filterMap.1 ht2
  exact (gridKeep_sub hL hkeep p hp).2

theorem padHex_mem {points : List Pt} {n : ℕ} :
    ∀ {geoms : List CG} {t : CG}, t ∈ padHex points n geoms →
      t ∈ geoms ∨ ∃ k : ℕ, ∃ hk : k < points.length,
        t = CG.disk (points.get ⟨k, hk⟩) (8 / 1000) := by
  have key : ∀ fuel : ℕ, ∀ geoms : List CG, n - geoms.length ≤ fuel →
      ∀ t : CG, t ∈ padHex points n geoms →
        t ∈ geoms ∨ ∃ k : ℕ, ∃ hk : k < points.length,
          t = CG.disk (points.get ⟨k, hk⟩) (8 / 1000) := by
    intro fuel
    induction fuel with
    | zero =>
      intro geoms hf t ht
      rw [padHex] at ht
      have hng : ¬(geoms.length < n ∧ geoms.length < points.length) := by omega
      rw [dif_neg hng] at ht
      exact Or.inl ht
    | succ fuel ih =>
      intro geoms hf t ht
      rw [padHex] at ht
      by_cases hc : geoms.length < n ∧ geoms.length < points.length
      · rw [dif_pos hc] at ht
        rcases ih _ (by
          simp only [List.length_append, List.length_cons, List.length_nil]
          omega) t ht with hin | hex
        · rcases List.mem_append.1 hin with h1 | h2
          · exact Or.inl h1
          · exact Or.inr ⟨geoms.length, hc.2, List.mem_singleton.1 h2⟩
        · exact Or.inr hex
      · rw [dif_neg hc] at ht
        exact Or.inl ht
  exact fun {geoms t} ht => key (n - geoms.length) geoms le_rfl t ht

theorem clampQ_mem {lo hi : ℚ} (x : ℚ) (h : lo ≤ hi) :
    lo ≤ clampQ lo hi x ∧ clampQ lo hi x ≤ hi :=
  ⟨le_max_left _ _, max_le h (min_le_left _ _)⟩

theorem disk_center_in_rect {west south east north cx cy : ℚ} {p : Pt}
    (hx1 : west + 1 / 100 ≤ cx) (hx2 : cx ≤ east - 1 / 100)
    (hy1 : south + 1 / 100 ≤ cy) (hy2 : cy ≤ north - 1 / 100)
    (hew : west ≤ east) (hsn : south ≤ north)
    (hp : containsB (CG.disk (cx, cy) (8 / 1000)) p = true) :
    rayCast [(west, south), (east, south), (east, north), (west, north),
      (west, south)] p = true := by
  have hd : sqDist p (cx, cy) < 8 / 1000 * (8 / 1000) := of_decide_eq_true hp
  have hsq : (p.1 - cx) * (p.1 - cx) + (p.2 - cy) * (p.2 - cy) < 8 / 1000 * (8 / 1000) := hd
  have hxlo : cx - 8 / 1000 < p.1 := by nlinarith [sq_nonneg (p.2 - cy), sq_nonneg (p.1 - cx + 8 / 1000)]
  have hxhi : p.1 < cx + 8 / 1000 := by nlinarith [sq_nonneg (p.2 - cy), sq_nonneg (p.1 - cx - 8 / 1000)]
  have hylo : cy - 8 / 1000 < p.2 := by nlinarith [sq_nonneg (p.1 - cx), sq_nonneg (p.2 - cy + 8 / 1000)]
  have hyhi : p.2 < cy + 8 / 1000 := by nlinarith [sq_nonneg (p.1 - cx), sq_nonneg (p.2 - cy - 8 / 1000)]
  exact (rayCast_rect west east south north p hew hsn).2
    ⟨by linarith, by linarith, by linarith, by linarith⟩

/-- Claim C2: every polygon returned by the grid-partition algorithm and by
both Voronoi algorithms - including every fallback path - lies inside the
input boundary: (a) grid outputs are intersections with the boundary
polygon; (b) scipy-Voronoi outputs are clipped to the boundary on the main
path and on both fallback paths; (c) outputs of the padded variant are
either clips against the rectangular boundary or hexagons (contained in
the `0.008` disk) around seed points clamped at least `0.01` inside the
rectangle, hence inside it. -/
theorem claim_C2_containment :
    (∀ (pred : GeoPred) (bvs : List Pt) (dataLen : ℕ), LargestSub pred →
      ∀ (i : ℕ) (p : Pt),
        containsB ((gridTracts pred bvs dataLen).getD i (CG.poly [])) p = true →
        containsB (CG.poly bvs) p = true) ∧
    (∀ (pred : GeoPred) (sites : List Pt) (ubFlags : List Bool) (boundary : CG),
      LargestSub pred →
      ∀ (i : ℕ) (p : Pt),
        containsB ((geoVoroTracts pred sites ubFlags boundary).getD i (CG.poly [])) p =
          true →
        containsB boundary p = true) ∧
    (∀ (pred : GeoPred) (west south east north : ℚ) (raws : List Pt)
        (vorPolys : List CG), LargestSub pred →
      west + 1 / 50 ≤ east → south + 1 / 50 ≤ north →
      ∀ (i : ℕ) (p : Pt),
        containsB ((voroTractsPadded pred west south east north raws vorPolys).getD i
          (CG.poly [])) p = true →
        containsB (CG.poly [(west, south), (east, south), (east, north), (west, north),
          (west, south)]) p = true) := by
  refine ⟨?_, ?_, ?_⟩
  · intro pred bvs dataLen hL i p hp
    exact sub_getD (gridTracts_sub_boundary hL bvs dataLen) i p hp
  · intro pred sites ubFlags boundary hL i p hp
    by_cases hi : i < sites.length
    · rw [geoVoroTracts_getD hi] at hp
      exact geoVoroTract_sub_boundary hL p hp
    · have hdef : (geoVoroTracts pred sites ubFlags boundary).getD i (CG.poly []) =
          CG.poly [] :=
        List.getD_eq_default _ _ (by
          rw [geoVoroTracts_length]
          exact le_of_not_lt hi)
      rw [hdef, containsB_empty_poly] at hp
      exact absurd hp Bool.false_ne_true
  · intro pred west south east north raws vorPolys hL h1 h2 i p hp
    refine sub_getD ?_ i p hp
    intro t ht q hq
    unfold voroTractsPadded at ht
    dsimp only at ht
    have ht2 := (List.take_sublist _ _).subset ht
    rcases padHex_mem ht2 with hin | ⟨k, hk, rfl⟩
    · obtain ⟨g, _, hkeep⟩ := List.mem_filterMap.1 hin
      exact (clipKeep_sub hL hkeep q hq).2
    · have hk' : k < raws.length := by simpa using hk
      have hget : (raws.map (clampPt west south east north)).get ⟨k, hk⟩ =
          clampPt west south east north (raws.get ⟨k, hk'⟩) := by
        rw [List.get_eq_getElem, List.get_eq_getElem, List.getElem_map]
      rw [hget] at hq
      have hx := clampQ_mem (raws.get ⟨k, hk'⟩).1
        (show west + 1 / 100 ≤ east - 1 / 100 by linarith)
      have hy := clampQ_mem (raws.get ⟨k, hk'⟩).2
        (show south + 1 / 100 ≤ north - 1 / 100 by linarith)
      show rayCast [(west, south), (east, south), (east, north), (west, north),
        (west, south)] q = true
      exact disk_center_in_rect hx.1 hx.2 hy.1 hy.2 (by linarith) (by linarith) hq

/-- Witness for C2, applying all three parts: the grid run on the unit
square; the scipy-Voronoi run on a single site (whose cell clipped to the
big square contains the origin); the padded run whose only output is the
hexagon fallback around the clamped seed `(99/100, 1/2)`. -/
theorem claim_C2_containment_witness :
    ((0 : ℚ) + 1 / 50 ≤ 1) ∧
    (containsB ((gridTracts defaultPred
        [((0 : ℚ), (0 : ℚ)), (1, 0), (1, 1), (0, 1), (0, 0)] 2).getD 0 (CG.poly []))
          ((1 / 4 : ℚ), (1 / 2 : ℚ)) = true →
      containsB (CG.poly [((0 : ℚ), (0 : ℚ)), (1, 0), (1, 1), (0, 1), (0, 0)])
        ((1 / 4 : ℚ), (1 / 2 : ℚ)) = true) ∧
    containsB (CG.poly [((-1 : ℚ), (-1 : ℚ)), (1, -1), (1, 1), (-1, 1), (-1, -1)])
      ((0 : ℚ), (0 : ℚ)) = true ∧
    containsB (CG.poly [((0 : ℚ), (0 : ℚ)), ((1 : ℚ), (0 : ℚ)), ((1 : ℚ), (1 : ℚ)),
      ((0 : ℚ), (1 : ℚ)), ((0 : ℚ), (0 : ℚ))]) ((99 / 100 : ℚ), (1 / 2 : ℚ)) = true := by
  refine ⟨by norm_num, ?_, ?_, ?_⟩
  · intro hp
    exact claim_C2_containment.1 defaultPred
      [((0 : ℚ), (0 : ℚ)), (1, 0), (1, 1), (0, 1), (0, 0)] 2 defaultPred_largestSub
      0 ((1 / 4 : ℚ), (1 / 2 : ℚ)) hp
  · have hant : containsB ((geoVoroTracts defaultPred [((0 : ℚ), (0 : ℚ))] [false]
        (CG.poly [((-1 : ℚ), (-1 : ℚ)), (1, -1), (1, 1), (-1, 1), (-1, -1)])).getD 0
          (CG.poly [])) ((0 : ℚ), (0 : ℚ)) = true := by
      have h0 : (geoVoroTracts defaultPred [((0 : ℚ), (0 : ℚ))] [false]
          (CG.poly [((-1 : ℚ), (-1 : ℚ)), (1, -1), (1, 1), (-1, 1), (-1, -1)])).getD 0
            (CG.poly []) =
          CG.interS (CG.voro [((0 : ℚ), (0 : ℚ))] 0)
            (CG.poly [((-1 : ℚ), (-1 : ℚ)), (1, -1), (1, 1), (-1, 1), (-1, -1)]) := rfl
      rw [h0]
      show (strictClosest [((0 : ℚ), (0 : ℚ))] 0 ((0 : ℚ), (0 : ℚ)) &&
        rayCast [((-1 : ℚ), (-1 : ℚ)), (1, -1), (1, 1), (-1, 1), (-1, -1)]
          ((0 : ℚ), (0 : ℚ))) = true
      rw [Bool.and_eq_true]
      exact ⟨rfl, by norm_num [rayCast, edgeCross, List.rotate]⟩
    exact claim_C2_containment.2.1 defaultPred [((0 : ℚ), (0 : ℚ))] [false]
      (CG.poly [((-1 : ℚ), (-1 : ℚ)), (1, -1), (1, 1), (-1, 1), (-1, -1)])
      defaultPred_largestSub 0 ((0 : ℚ), (0 : ℚ)) hant
  · have hL0 : voroTractsPadded defaultPred 0 0 1 1 [((2 : ℚ), (1 : ℚ) / 2)] [] =
        [CG.disk (clampPt 0 0 1 1 ((2 : ℚ), (1 : ℚ) / 2)) (8 / 1000)] := by
      simp [voroTractsPadded, extractClips, padHex]
    have hant : containsB ((voroTractsPadded defaultPred 0 0 1 1
        [((2 : ℚ), (1 : ℚ) / 2)] []).getD 0 (CG.poly [])) ((99 / 100 : ℚ), (1 / 2 : ℚ)) =
          true := by
      rw [hL0]
      show containsB (CG.disk (clampPt 0 0 1 1 ((2 : ℚ), (1 : ℚ) / 2)) (8 / 1000))
        ((99 / 100 : ℚ), (1 / 2 : ℚ)) = true
      show decide (sqDist ((99 / 100 : ℚ), (1 / 2 : ℚ))
        (clampPt 0 0 1 1 ((2 : ℚ), (1 : ℚ) / 2)) < 8 / 1000 * (8 / 1000)) = true
      rw [decide_eq_true_eq]
      norm_num [sqDist, clampPt, clampQ]
    exact claim_C2_containment.2.2 defaultPred 0 0 1 1 [((2 : ℚ), (1 : ℚ) / 2)] []
      defaultPred_largestSub (by norm_num) (by norm_num) 0
      ((99 / 100 : ℚ), (1 / 2 : ℚ)) hant
